import Mathlib

set_option maxRecDepth 100000

/-!
Verification of the doc-update tool's content matcher
(`app/services/ai_analyzer.py`) and update manager
(`app/services/update_manager.py`).

Strings are modelled as lists of characters (`Str`).  The two JSON stores
(`pending_updates.json`, `applied_updates.json`) and the documentation files
are modelled as in-memory values threaded explicitly through each operation.
Python string primitives (`in`, `str.replace`, `re.sub`-based normalisation)
are re-defined below with Python's semantics.  Timestamps (`approved_at`,
`rejected_at`, `reverted_at`, `applied_at`) and free-text report fields are
elided: no modelled behaviour reads them back.  The time-derived backup
suffix is threaded as an explicit parameter.
-/

/-- Strings, modelled as lists of characters. -/
abbrev Str := List Char

/-- Boolean test that `pat` is a prefix of `s`. -/
def isPrefixList : Str → Str → Bool
  | [], _ => true
  | _ :: _, [] => false
  | a :: as, b :: bs => a = b && isPrefixList as bs

/-- Python's substring test `pat in s` (contiguous substring; the empty
string is a substring of everything). -/
def isSubstr (pat : Str) : Str → Bool
  | [] => isPrefixList pat []
  | c :: t => isPrefixList pat (c :: t) || isSubstr pat t

/-- Worker for `replaceAll` on a non-empty pattern: left-to-right,
non-overlapping replacement, exactly as Python's `str.replace`.
The fuel argument (instantiated with the subject's length) makes the
recursion structural. -/
def replaceFuel (pat rep : Str) : Nat → Str → Str
  | _, [] => []
  | 0, s => s
  | fuel + 1, c :: rest =>
    if 0 < pat.length ∧ isPrefixList pat (c :: rest) = true then
      rep ++ replaceFuel pat rep fuel (rest.drop (pat.length - 1))
    else
      c :: replaceFuel pat rep fuel rest

/-- Python's `s.replace(pat, rep)`: every non-overlapping occurrence is
replaced, scanning left to right.  For the empty pattern Python inserts
`rep` before every character and once at the end. -/
def replaceAll (pat rep s : Str) : Str :=
  if pat = [] then rep ++ s.foldr (fun c acc => c :: (rep ++ acc)) []
  else replaceFuel pat rep s.length s

/-- Replacement of only the first occurrence of `pat`.  This definition
follows the specification's words ("the first (and only) occurrence ...
replaced"), for comparison against the source's replace-all behaviour. -/
def replaceFirst (pat rep : Str) : Str → Str
  | [] => []
  | c :: rest =>
    if 0 < pat.length ∧ isPrefixList pat (c :: rest) = true then
      rep ++ rest.drop (pat.length - 1)
    else
      c :: replaceFirst pat rep rest

/-- The ASCII characters matched by Python's `\s` character class. -/
def pyIsSpace (c : Char) : Bool :=
  c = ' ' || c = '\t' || c = '\n' || c = '\r' || c = Char.ofNat 11 || c = Char.ofNat 12

/-- Collapse adjacent space characters to a single one. -/
def dedupSpace : Str → Str
  | [] => []
  | [c] => [c]
  | a :: b :: rest =>
    if a = ' ' ∧ b = ' ' then dedupSpace (b :: rest)
    else a :: dedupSpace (b :: rest)

/-- Python's `re.sub(r'\s+', ' ', s)`: every maximal whitespace run becomes
a single space.  Each whitespace character is first mapped to a space, then
adjacent spaces are collapsed. -/
def collapseWs (s : Str) : Str :=
  dedupSpace (s.map (fun c => if pyIsSpace c then ' ' else c))

/-- Python's `s.strip()` restricted to the ASCII whitespace class. -/
def stripStr (s : Str) : Str :=
  ((s.dropWhile pyIsSpace).reverse.dropWhile pyIsSpace).reverse

/-- The normaliser `AIAnalyzer._normalize_text`: remove markdown bold markers and code
backquotes, collapse whitespace runs, strip, lowercase (ASCII lowering, as
the corpora are ASCII). The code-marker character is written by code point
(96) rather than literally. -/
def normalizeText (s : Str) : Str :=
  let s1 := replaceAll ['*', '*'] [] s
  let s2 := s1.filter (fun c => !(c = Char.ofNat 96))
  (stripStr (collapseWs s2)).map Char.toLower

/-- Length of the longest common prefix of two strings. -/
def commonPrefixLen : Str → Str → Nat
  | a :: as, b :: bs => if a = b then commonPrefixLen as bs + 1 else 0
  | _, _ => 0

/-- A matching block as returned by `difflib.SequenceMatcher.find_longest_match`:
start offset in the first string, start offset in the second, and length. -/
structure MatchBlock where
  a : Nat
  b : Nat
  size : Nat
deriving DecidableEq

/-- One candidate-inspection step of the longest-match search: strict
improvement only, so the first (lexicographically smallest) maximiser is
kept — `difflib`'s tie-breaking with no junk characters. -/
def fuzzyStep (x y : Str) (i : Nat) (best : MatchBlock) (j : Nat) : MatchBlock :=
  let k := commonPrefixLen (x.drop i) (y.drop j)
  if best.size < k then ⟨i, j, k⟩ else best

/-- Inner loop of the longest-match search over candidate second-string
offsets. -/
def fuzzyInner (x y : Str) (i : Nat) (js : List Nat) (best : MatchBlock) : MatchBlock :=
  js.foldl (fuzzyStep x y i) best

/-- Outer loop of the longest-match search over candidate first-string
offsets. -/
def fuzzyOuter (x y : Str) (idxs : List Nat) (best : MatchBlock) : MatchBlock :=
  idxs.foldl (fun b i => fuzzyInner x y i (List.range y.length) b) best

/-- The search `difflib.SequenceMatcher(None, x, y, autojunk=False).find_longest_match`:
the longest common contiguous block, earliest in `x` then in `y` on ties. -/
def findLongestMatch (x y : Str) : MatchBlock :=
  fuzzyOuter x y (List.range x.length) ⟨0, 0, 0⟩

/-- A rational given directly in lowest terms, bypassing normalisation so
that kernel evaluation (`decide`) never has to compute a gcd. -/
def ratLT (n : Int) (d : Nat) (h1 : d ≠ 0) (h2 : n.natAbs.Coprime d) : ℚ := ⟨n, d, h1, h2⟩

/-- The fixed fuzzy-tier confidence ceiling 0.6. -/
def confCeiling : ℚ := ratLT 3 5 (by norm_num) (by norm_num)

/-! ## Content matcher (`AIAnalyzer._parse_ai_response`, per-suggestion core) -/

/-- A documentation section (`DocumentSection`): `section_type` and
`parent_section` are never read by the matcher and are elided. -/
structure DocSection where
  id : Str
  title : Str
  content : Str
  filePath : Str
deriving DecidableEq

/-- The generator-supplied fields of one raw suggestion, after the JSON
`get` defaults of `_parse_ai_response` have been taken
(`original_content`, `suggested_content`, `change_type`,
`confidence_score` as parsed by `float(...)`, `reasoning`). -/
structure SuggRaw where
  origContent : Str
  suggContent : Str
  changeType : Str
  confidence : ℚ
  reasoning : Str
deriving DecidableEq

/-- An `UpdateSuggestion` as produced by the matcher. -/
structure UpdateSuggestion where
  sectionId : Str
  sectionTitle : Str
  filePath : Str
  originalContent : Str
  suggestedContent : Str
  changeType : Str
  confidenceScore : ℚ
  reasoning : Str
deriving DecidableEq

/-- The reasoning suffix appended on a fuzzy match. -/
def fuzzyNote : Str :=
  " (Note: Original content was fuzzy-matched and corrected for accuracy.)".toList

/-- The three-tier match of `_parse_ai_response` for one raw suggestion
against its resolved section: exact substring, then normalized substring,
then fuzzy longest-common-substring.  The fuzzy guard renders the float
test `match.size > 0 and match.size / len(orig_content) > 0.8` exactly as
`0 < size ∧ 4 * len < 5 * size` (integer arithmetic, no rounding).
Returns `none` when the suggestion is dropped. -/
def processSuggestion (d : SuggRaw) (sec : DocSection) : Option UpdateSuggestion :=
  if isSubstr d.origContent sec.content then
    some ⟨sec.id, sec.title, sec.filePath, d.origContent, d.suggContent,
          d.changeType, d.confidence, d.reasoning⟩
  else
    let normOrig := normalizeText d.origContent
    if !normOrig.isEmpty && isSubstr normOrig (normalizeText sec.content) then
      some ⟨sec.id, sec.title, sec.filePath, d.origContent, d.suggContent,
            d.changeType, d.confidence, d.reasoning⟩
    else
      let m := findLongestMatch d.origContent sec.content
      if 0 < m.size ∧ 4 * d.origContent.length < 5 * m.size then
        some ⟨sec.id, sec.title, sec.filePath, (sec.content.drop m.b).take m.size,
              d.suggContent, d.changeType, confCeiling, d.reasoning ++ fuzzyNote⟩
      else
        none

/-! ## Update manager (`UpdateManager`) -/

/-- Suggestion lifecycle status strings. -/
inductive Status where
  | pending
  | approved
  | rejected
  | successfullyApplied
  | failed
  | reverted
deriving DecidableEq

/-- A stored suggestion record.  Provenance fields (`section_id`,
`section_title`, `confidence_score`, `reasoning`, `change_type`) and
transition timestamps are elided: no modelled operation reads them. -/
structure StoredSugg where
  suggestionId : Str
  filePath : Str
  originalContent : Str
  suggestedContent : Str
  status : Status
  backupPath : Option Str
deriving DecidableEq

/-- A stored batch (`created_at`, `query`, `user_id` elided). -/
structure Batch where
  batchId : Str
  suggestions : List StoredSugg
deriving DecidableEq

/-- The documentation directory, as a map from file path to file content
(association list; the first binding for a path is its content). -/
abbrev FS := List (Str × Str)

/-- Read a file. -/
def fsLookup : FS → Str → Option Str
  | [], _ => none
  | (p, c) :: rest, q => if p = q then some c else fsLookup rest q

/-- Write (create or overwrite) a file. -/
def fsWrite : FS → Str → Str → FS
  | [], p, c => [(p, c)]
  | (q, d) :: rest, p, c =>
    if q = p then (p, c) :: rest else (q, d) :: fsWrite rest p c

/-- Delete a file. -/
def fsErase (fs : FS) (p : Str) : FS :=
  fs.filter (fun e => !decide (e.1 = p))

/-- The move `shutil.move src dst` on one filesystem: the destination receives the
source's content and the source disappears. -/
def fsMove (fs : FS) (src dst : Str) : FS :=
  match fsLookup fs src with
  | none => fs
  | some c => if src = dst then fs else fsWrite (fsErase fs src) dst c

/-- The manager's persisted state: the pending store, the applied store and
the documentation files. -/
structure MState where
  pending : List Batch
  applied : List Batch
  fs : FS
deriving DecidableEq

/-- The error results the manager returns (as `{"error": ...}` payloads or
a raised-and-reported exception). -/
inductive OpError where
  | fileNotFound
  | batchNotFound
  | suggNotFound
  | badStatus (s : Status)
  | backupMissing
deriving DecidableEq

/-- Result of a manager operation: a success payload or an error payload. -/
inductive OpResult (α : Type) where
  | ok (val : α)
  | err (e : OpError)
deriving DecidableEq

/-- The status field of `_apply_suggestion_to_file`'s result. -/
inductive ApplyKind where
  | applied
  | appliedAsAddition
deriving DecidableEq

/-- Result payload of `_apply_suggestion_to_file`. -/
structure ApplyRes where
  suggestionId : Str
  filePath : Str
  backupPath : Str
  kind : ApplyKind
deriving DecidableEq

/-- The backup suffix marker. -/
def backupMarker : Str := ".backup.".toList

/-- The annotated trailing block appended when `original_content` is not
found verbatim. -/
def annotatedBlock (sugg : Str) : Str :=
  "\n\n<!-- UPDATED: ".toList ++ sugg ++ " -->\n".toList

/-- Path normalisation `file_path.replace('\\', '/')`. -/
def normalizePath (p : Str) : Str :=
  p.map (fun c => if c = '\\' then '/' else c)

/-- The patcher `_apply_suggestion_to_file`: reads the file, writes a backup of the
unmodified content at path + `.backup.` + timestamp, then either replaces
`original_content` (Python `str.replace`: all occurrences) or appends the
annotated block.  `ts` is the `strftime` timestamp of this call. -/
def applySuggestionToFile (s : StoredSugg) (ts : Str) (fs : FS) :
    OpResult (FS × ApplyRes) :=
  let fp := normalizePath s.filePath
  match fsLookup fs fp with
  | none => .err .fileNotFound
  | some content =>
    let bp := fp ++ backupMarker ++ ts
    if isSubstr s.originalContent content then
      let updated := replaceAll s.originalContent s.suggestedContent content
      .ok (fsWrite (fsWrite fs bp content) fp updated,
           ⟨s.suggestionId, fp, bp, .applied⟩)
    else
      let updated := content ++ annotatedBlock s.suggestedContent
      .ok (fsWrite (fsWrite fs bp content) fp updated,
           ⟨s.suggestionId, fp, bp, .appliedAsAddition⟩)

/-- The application loop of `approve_suggestions`: applies each approved
suggestion in order (the `n`-th call stamped `ts n`), collecting the
successfully applied ones with their status and backup path updated.
A failed application leaves the filesystem as it was (the only failure,
a missing file, happens before any write). -/
def applyAll (ts : Nat → Str) : List StoredSugg → FS → Nat → FS × List StoredSugg
  | [], fs, _ => (fs, [])
  | s :: rest, fs, n =>
    match applySuggestionToFile s (ts n) fs with
    | .ok (fs₁, r) =>
      let (fs₂, succ) := applyAll ts rest fs₁ (n + 1)
      (fs₂, { s with status := .successfullyApplied, backupPath := some r.backupPath } :: succ)
    | .err _ =>
      let (fs₂, succ) := applyAll ts rest fs (n + 1)
      (fs₂, succ)

/-- Locate the first batch with the given id, returning the batches before
it, the batch, and the batches after it. -/
def extractBatch : List Batch → Str → Option (List Batch × Batch × List Batch)
  | [], _ => none
  | b :: rest, bid =>
    if b.batchId = bid then some ([], b, rest)
    else
      match extractBatch rest bid with
      | some (pre, tb, post) => some (b :: pre, tb, post)
      | none => none

/-- The store move `_move_to_applied`: extend the first applied batch with the same id,
else append a new batch record. -/
def moveToApplied : List Batch → Str → List StoredSugg → List Batch
  | [], bid, succ => [⟨bid, succ⟩]
  | b :: rest, bid, succ =>
    if b.batchId = bid then { b with suggestions := b.suggestions ++ succ } :: rest
    else b :: moveToApplied rest bid succ

/-- Success payload of `approve_suggestions` (`applied_changes` and the
echoed suggestion list elided). -/
structure ApproveOk where
  approvedCount : Nat
  failedCount : Nat
deriving DecidableEq

/-- The operation `approve_suggestions`: every suggestion of the named batch whose id is
in `ids` is marked approved and applied (no status precondition); each one
ends successfully applied or failed and is removed from the pending batch;
an emptied batch is removed; successes are moved to the applied store. -/
def approveSuggestions (st : MState) (bid : Str) (ids : List Str) (ts : Nat → Str) :
    MState × OpResult ApproveOk :=
  match extractBatch st.pending bid with
  | none => (st, .err .batchNotFound)
  | some (pre, batch, post) =>
    let approved := batch.suggestions.filter (fun s => decide (s.suggestionId ∈ ids))
    let (fs₁, succ) := applyAll ts approved st.fs 0
    let remaining := batch.suggestions.filter (fun s => !decide (s.suggestionId ∈ ids))
    let pending₁ :=
      if remaining.isEmpty then pre ++ post
      else pre ++ ({ batch with suggestions := remaining } :: post)
    let applied₁ := if succ.isEmpty then st.applied else moveToApplied st.applied bid succ
    (⟨pending₁, applied₁, fs₁⟩, .ok ⟨succ.length, approved.length - succ.length⟩)

/-- Success payload of `reject_suggestions`. -/
structure RejectOk where
  rejectedCount : Nat
deriving DecidableEq

/-- The operation `reject_suggestions`: removes every suggestion of the named batch whose
id is in `ids` (no status precondition), removes the batch if emptied, and
reports `len(rejected_suggestion_ids)` as the rejected count. -/
def rejectSuggestions (st : MState) (bid : Str) (ids : List Str) :
    MState × OpResult RejectOk :=
  match extractBatch st.pending bid with
  | none => (st, .err .batchNotFound)
  | some (pre, batch, post) =>
    let remaining := batch.suggestions.filter (fun s => !decide (s.suggestionId ∈ ids))
    let pending₁ :=
      if remaining.isEmpty then pre ++ post
      else pre ++ ({ batch with suggestions := remaining } :: post)
    (⟨pending₁, st.applied, st.fs⟩, .ok ⟨ids.length⟩)

/-- The live filter of `get_pending_updates`: keep only pending
suggestions, and drop batches left with none. -/
def filterPendingBatches : List Batch → List Batch
  | [] => []
  | b :: rest =>
    let ps := b.suggestions.filter (fun s => decide (s.status = .pending))
    if ps.isEmpty then filterPendingBatches rest
    else { b with suggestions := ps } :: filterPendingBatches rest

/-- The listing `get_pending_updates`, with the optional batch-id filter. -/
def getPendingUpdates (pending : List Batch) (bid : Option Str) : List Batch :=
  let filtered := filterPendingBatches pending
  match bid with
  | some b => filtered.filter (fun x => decide (x.batchId = b))
  | none => filtered

/-- The search of `revert_update`: first matching suggestion of the first
batch that contains one. -/
def findApplied : List Batch → Str → Option StoredSugg
  | [], _ => none
  | b :: rest, sid =>
    match b.suggestions.find? (fun s => decide (s.suggestionId = sid)) with
    | some s => some s
    | none => findApplied rest sid

/-- Set the first suggestion with the given id to status reverted;
`none` when the list holds no such suggestion. -/
def setRevertedSuggs : List StoredSugg → Str → Option (List StoredSugg)
  | [], _ => none
  | s :: rest, sid =>
    if s.suggestionId = sid then some ({ s with status := .reverted } :: rest)
    else
      match setRevertedSuggs rest sid with
      | some rest₁ => some (s :: rest₁)
      | none => none

/-- Mark the located suggestion reverted inside the applied store. -/
def setReverted : List Batch → Str → List Batch
  | [], _ => []
  | b :: rest, sid =>
    match setRevertedSuggs b.suggestions sid with
    | some ss => { b with suggestions := ss } :: rest
    | none => b :: setReverted rest sid

/-- Success payload of `revert_update`. -/
structure RevertOk where
  suggestionId : Str
  filePath : Str
deriving DecidableEq

/-- The operation `revert_update`: locate the suggestion in the applied store; it must be
in status successfully_applied and its backup path must be non-empty and
exist; then the backup file is moved back over the document file and the
suggestion is marked reverted.  Every failure leaves all state untouched. -/
def revertUpdate (st : MState) (sid : Str) : MState × OpResult RevertOk :=
  match findApplied st.applied sid with
  | none => (st, .err .suggNotFound)
  | some s =>
    if s.status = .successfullyApplied then
      match s.backupPath with
      | none => (st, .err .backupMissing)
      | some bp =>
        if bp.isEmpty then (st, .err .backupMissing)
        else
          match fsLookup st.fs bp with
          | none => (st, .err .backupMissing)
          | some _ =>
            (⟨st.pending, setReverted st.applied sid, fsMove st.fs bp s.filePath⟩,
             .ok ⟨sid, s.filePath⟩)
    else (st, .err (.badStatus s.status))

/-- Does this suggestion's backup file exist (non-empty path present in
the filesystem)?  This is the `not backup_path or not os.path.exists(...)`
test of the revert paths. -/
def hasBackup (fs : FS) (s : StoredSugg) : Bool :=
  match s.backupPath with
  | some bp => !bp.isEmpty && (fsLookup fs bp).isSome
  | none => false

/-- The per-batch pass of `revert_all_updates`: returns the filesystem
after the moves, the surviving suggestions, and the (reverted, failed)
counts for this batch. -/
def revertSuggs : List StoredSugg → FS → FS × List StoredSugg × Nat × Nat
  | [], fs => (fs, [], 0, 0)
  | s :: rest, fs =>
    if s.status = .successfullyApplied then
      if hasBackup fs s then
        let fs₁ := fsMove fs (s.backupPath.getD []) s.filePath
        let (fs₂, surv, rc, fc) := revertSuggs rest fs₁
        (fs₂, surv, rc + 1, fc)
      else
        let (fs₂, surv, rc, fc) := revertSuggs rest fs
        (fs₂, s :: surv, rc, fc + 1)
    else
      let (fs₂, surv, rc, fc) := revertSuggs rest fs
      (fs₂, s :: surv, rc, fc)

/-- The batch loop of `revert_all_updates`: batches left with no surviving
suggestions are dropped. -/
def revertAllBatches : List Batch → FS → FS × List Batch × Nat × Nat
  | [], fs => (fs, [], 0, 0)
  | b :: rest, fs =>
    let (fs₁, surv, rc, fc) := revertSuggs b.suggestions fs
    let (fs₂, bs, rc₁, fc₁) := revertAllBatches rest fs₁
    (fs₂, (if surv.isEmpty then bs else { b with suggestions := surv } :: bs),
     rc + rc₁, fc + fc₁)

/-- Result payload of `revert_all_updates` (the per-item detail list is a
reporting artifact and is elided; the counts are kept). -/
structure RevertAllRes where
  revertedCount : Nat
  failedCount : Nat
deriving DecidableEq

/-- The operation `revert_all_updates`. -/
def revertAllUpdates (st : MState) : MState × RevertAllRes :=
  let (fs₁, bs, rc, fc) := revertAllBatches st.applied st.fs
  (⟨st.pending, bs, fs₁⟩, ⟨rc, fc⟩)

/-- All suggestions of a store, in processing order. -/
def allSuggs (bs : List Batch) : List StoredSugg :=
  bs.flatMap (fun b => b.suggestions)

/-- A suggestion that `revert_all_updates` reverts and drops: successfully
applied with an existing backup. -/
def backupLive (fs : FS) (s : StoredSugg) : Bool :=
  decide (s.status = .successfullyApplied) && hasBackup fs s

/-- A suggestion that `revert_all_updates` counts as a per-item failure:
successfully applied but its backup file is missing. -/
def appliedNoBackup (fs : FS) (s : StoredSugg) : Bool :=
  decide (s.status = .successfullyApplied) && !hasBackup fs s

/-- The backup paths carried by a suggestion list. -/
def suggBps (ss : List StoredSugg) : List Str :=
  ss.filterMap (fun s => s.backupPath)

/-- The file paths carried by a suggestion list. -/
def suggFps (ss : List StoredSugg) : List Str :=
  ss.map (fun s => s.filePath)

/-! ## Helper lemmas: the filesystem model -/

theorem fsLookup_fsWrite_self (fs : FS) (p v : Str) :
    fsLookup (fsWrite fs p v) p = some v := by
  induction fs with
  | nil => simp [fsWrite, fsLookup]
  | cons e rest ih =>
    obtain ⟨a, b⟩ := e
    by_cases hap : a = p
    · subst hap
      simp [fsWrite, fsLookup]
    · simp [fsWrite, fsLookup, hap, ih]

theorem fsLookup_fsWrite_ne (fs : FS) (p v q : Str) (h : q ≠ p) :
    fsLookup (fsWrite fs p v) q = fsLookup fs q := by
  have h' : ¬ p = q := fun hh => h hh.symm
  induction fs with
  | nil => simp [fsWrite, fsLookup, h']
  | cons e rest ih =>
    obtain ⟨a, b⟩ := e
    by_cases hap : a = p
    · subst hap
      simp [fsWrite, fsLookup, h']
    · by_cases hqa : a = q
      · simp [fsWrite, fsLookup, hap, hqa, h, h']
      · simp [fsWrite, fsLookup, hap, hqa, ih]

theorem fsLookup_fsErase_self (fs : FS) (p : Str) :
    fsLookup (fsErase fs p) p = none := by
  induction fs with
  | nil => simp [fsErase, fsLookup]
  | cons e rest ih =>
    obtain ⟨a, b⟩ := e
    by_cases hap : a = p
    · subst hap
      simpa [fsErase, fsLookup] using ih
    · simpa [fsErase, fsLookup, hap] using ih

theorem fsLookup_fsErase_ne (fs : FS) (p q : Str) (h : q ≠ p) :
    fsLookup (fsErase fs p) q = fsLookup fs q := by
  induction fs with
  | nil => simp [fsErase, fsLookup]
  | cons e rest ih =>
    obtain ⟨a, b⟩ := e
    by_cases hap : a = p
    · subst hap
      have h2 : ¬ a = q := fun hh => h hh.symm
      simpa [fsErase, fsLookup, h2] using ih
    · by_cases hqa : a = q
      · simp [fsErase, fsLookup, hap, hqa, h]
      · simpa [fsErase, fsLookup, hap, hqa] using ih

theorem fsMove_eq (fs : FS) (src dst c : Str)
    (hc : fsLookup fs src = some c) (hne : src ≠ dst) :
    fsMove fs src dst = fsWrite (fsErase fs src) dst c := by
  unfold fsMove
  rw [hc]
  simp [hne]

theorem fsLookup_fsMove_dst (fs : FS) (src dst c : Str)
    (hc : fsLookup fs src = some c) (hne : src ≠ dst) :
    fsLookup (fsMove fs src dst) dst = some c := by
  rw [fsMove_eq fs src dst c hc hne, fsLookup_fsWrite_self]

theorem fsLookup_fsMove_src (fs : FS) (src dst c : Str)
    (hc : fsLookup fs src = some c) (hne : src ≠ dst) :
    fsLookup (fsMove fs src dst) src = none := by
  rw [fsMove_eq fs src dst c hc hne, fsLookup_fsWrite_ne _ _ _ _ hne,
    fsLookup_fsErase_self]

theorem fsLookup_fsMove_other (fs : FS) (src dst c q : Str)
    (hc : fsLookup fs src = some c) (hne : src ≠ dst)
    (hq1 : q ≠ dst) (hq2 : q ≠ src) :
    fsLookup (fsMove fs src dst) q = fsLookup fs q := by
  rw [fsMove_eq fs src dst c hc hne, fsLookup_fsWrite_ne _ _ _ _ hq1,
    fsLookup_fsErase_ne _ _ _ hq2]

theorem backupPath_ne (fp ts : Str) : fp ++ backupMarker ++ ts ≠ fp := by
  intro h
  have hlen := congrArg List.length h
  simp [backupMarker] at hlen

theorem backupPath_not_empty (fp ts : Str) :
    (fp ++ backupMarker ++ ts).isEmpty = false := by
  cases h : (fp ++ backupMarker ++ ts).isEmpty
  · rfl
  · exfalso
    rw [List.isEmpty_iff] at h
    have hlen := congrArg List.length h
    simp [backupMarker] at hlen

/-! ## Helper lemmas: applying a suggestion -/

theorem applySuggestionToFile_subst (s : StoredSugg) (ts : Str) (fs : FS) (content : Str)
    (h : fsLookup fs (normalizePath s.filePath) = some content)
    (hsub : isSubstr s.originalContent content = true) :
    applySuggestionToFile s ts fs =
      .ok (fsWrite (fsWrite fs (normalizePath s.filePath ++ backupMarker ++ ts) content)
             (normalizePath s.filePath)
             (replaceAll s.originalContent s.suggestedContent content),
           ⟨s.suggestionId, normalizePath s.filePath,
            normalizePath s.filePath ++ backupMarker ++ ts, .applied⟩) := by
  simp [applySuggestionToFile, h, hsub]

theorem applySuggestionToFile_append (s : StoredSugg) (ts : Str) (fs : FS) (content : Str)
    (h : fsLookup fs (normalizePath s.filePath) = some content)
    (hsub : isSubstr s.originalContent content = false) :
    applySuggestionToFile s ts fs =
      .ok (fsWrite (fsWrite fs (normalizePath s.filePath ++ backupMarker ++ ts) content)
             (normalizePath s.filePath)
             (content ++ annotatedBlock s.suggestedContent),
           ⟨s.suggestionId, normalizePath s.filePath,
            normalizePath s.filePath ++ backupMarker ++ ts, .appliedAsAddition⟩) := by
  simp [applySuggestionToFile, h, hsub]

/-! ## Helper lemmas: locating suggestions in the applied store -/

theorem find?_append_of_none {α : Type} (p : α → Bool) (l₁ l₂ : List α)
    (h : l₁.find? p = none) : (l₁ ++ l₂).find? p = l₂.find? p := by
  induction l₁ with
  | nil => simp
  | cons a rest ih =>
    by_cases hp : p a
    · simp [List.find?_cons_of_pos _ hp] at h
    · rw [List.find?_cons_of_neg _ hp] at h
      simp [List.find?_cons_of_neg _ hp, ih h]

theorem setRevertedSuggs_of_find?_none (ss : List StoredSugg) (sid : Str)
    (h : ss.find? (fun s => decide (s.suggestionId = sid)) = none) :
    setRevertedSuggs ss sid = none := by
  induction ss with
  | nil => rfl
  | cons a rest ih =>
    by_cases hp : a.suggestionId = sid
    · simp [List.find?_cons_of_pos, hp] at h
    · rw [List.find?_cons_of_neg _ (by simp [hp])] at h
      simp [setRevertedSuggs, hp, ih h]

theorem setRevertedSuggs_of_find?_some (ss : List StoredSugg) (sid : Str) (s : StoredSugg)
    (h : ss.find? (fun x => decide (x.suggestionId = sid)) = some s) :
    ∃ ss₁, setRevertedSuggs ss sid = some ss₁ ∧
      ss₁.find? (fun x => decide (x.suggestionId = sid)) =
        some { s with status := .reverted } := by
  induction ss with
  | nil => simp at h
  | cons a rest ih =>
    by_cases hp : a.suggestionId = sid
    · rw [List.find?_cons_of_pos _ (by simp [hp])] at h
      obtain rfl : a = s := by injection h
      refine ⟨{ a with status := .reverted } :: rest, by simp [setRevertedSuggs, hp], ?_⟩
      exact List.find?_cons_of_pos _ (by simp [hp])
    · rw [List.find?_cons_of_neg _ (by simp [hp])] at h
      obtain ⟨rest₁, hr1, hr2⟩ := ih h
      refine ⟨a :: rest₁, by simp [setRevertedSuggs, hp, hr1], ?_⟩
      rw [List.find?_cons_of_neg _ (by simp [hp])]
      exact hr2

theorem findApplied_setReverted (l : List Batch) (sid : Str) (s : StoredSugg)
    (h : findApplied l sid = some s) :
    findApplied (setReverted l sid) sid = some { s with status := .reverted } := by
  induction l with
  | nil => simp [findApplied] at h
  | cons b rest ih =>
    cases hb : b.suggestions.find? (fun x => decide (x.suggestionId = sid)) with
    | some s₁ =>
      have hs : s₁ = s := by
        rw [findApplied, hb] at h
        injection h
      subst hs
      obtain ⟨ss₁, h1, h2⟩ := setRevertedSuggs_of_find?_some b.suggestions sid s₁ hb
      rw [setReverted, h1]
      rw [findApplied, h2]
    | none =>
      rw [findApplied, hb] at h
      rw [setReverted, setRevertedSuggs_of_find?_none b.suggestions sid hb]
      rw [findApplied, hb]
      exact ih h

theorem findApplied_moveToApplied (l : List Batch) (bid : Str) (s : StoredSugg)
    (h : findApplied l s.suggestionId = none) :
    findApplied (moveToApplied l bid [s]) s.suggestionId = some s := by
  induction l with
  | nil =>
    simp [moveToApplied, findApplied, List.find?_cons_of_pos]
  | cons b rest ih =>
    cases hb : b.suggestions.find? (fun x => decide (x.suggestionId = s.suggestionId)) with
    | some s₁ =>
      rw [findApplied, hb] at h
      simp at h
    | none =>
      rw [findApplied, hb] at h
      by_cases hid : b.batchId = bid
      · rw [moveToApplied, if_pos hid, findApplied]
        rw [find?_append_of_none _ _ _ hb]
        simp [List.find?_cons_of_pos]
      · rw [moveToApplied, if_neg hid, findApplied, hb]
        exact ih h

/-! ## Helper lemmas: the pending store -/

theorem extractBatch_some (l : List Batch) (bid : Str) (pre : List Batch) (B : Batch)
    (post : List Batch) (h : extractBatch l bid = some (pre, B, post)) :
    l = pre ++ B :: post ∧ B.batchId = bid ∧ ∀ x ∈ pre, x.batchId ≠ bid := by
  induction l generalizing pre with
  | nil => simp [extractBatch] at h
  | cons b rest ih =>
    by_cases hb : b.batchId = bid
    · rw [extractBatch, if_pos hb] at h
      obtain ⟨h1, h2, h3⟩ : ([] : List Batch) = pre ∧ b = B ∧ rest = post := by
        simpa using h
      subst h1; subst h2; subst h3
      exact ⟨rfl, hb, by simp⟩
    · rw [extractBatch, if_neg hb] at h
      cases hrec : extractBatch rest bid with
      | none => rw [hrec] at h; simp at h
      | some trip =>
        obtain ⟨pre₁, B₁, post₁⟩ := trip
        rw [hrec] at h
        obtain ⟨h1, h2, h3⟩ : b :: pre₁ = pre ∧ B₁ = B ∧ post₁ = post := by
          simpa using h
        subst h1; subst h2; subst h3
        obtain ⟨g1, g2, g3⟩ := ih pre₁ hrec
        refine ⟨by rw [g1]; rfl, g2, ?_⟩
        intro x hx
        rcases List.mem_cons.1 hx with hx | hx
        · subst hx; exact hb
        · exact g3 x hx

theorem filterPendingBatches_append (l₁ l₂ : List Batch) :
    filterPendingBatches (l₁ ++ l₂) =
      filterPendingBatches l₁ ++ filterPendingBatches l₂ := by
  induction l₁ with
  | nil => simp [filterPendingBatches]
  | cons b rest ih =>
    by_cases hb : (b.suggestions.filter (fun s => decide (s.status = .pending))).isEmpty
    · simp [filterPendingBatches, hb, ih]
    · simp [filterPendingBatches, hb, ih]

theorem mem_filterPendingBatches (l : List Batch) (b₁ : Batch)
    (h : b₁ ∈ filterPendingBatches l) :
    ∃ b₀ ∈ l,
      b₁ = { b₀ with
             suggestions := b₀.suggestions.filter (fun s => decide (s.status = .pending)) } ∧
      (b₀.suggestions.filter (fun s => decide (s.status = .pending))).isEmpty = false := by
  induction l with
  | nil => simp [filterPendingBatches] at h
  | cons b rest ih =>
    by_cases hb : (b.suggestions.filter (fun s => decide (s.status = .pending))).isEmpty
    · rw [filterPendingBatches] at h
      simp only [hb, if_true] at h
      obtain ⟨b₀, hb0, he⟩ := ih h
      exact ⟨b₀, List.mem_cons_of_mem _ hb0, he⟩
    · rw [filterPendingBatches] at h
      simp only [hb, if_false] at h
      rcases List.mem_cons.1 h with hx | hx
      · exact ⟨b, List.mem_cons_self _ _, hx, by simpa using hb⟩
      · obtain ⟨b₀, hb0, he⟩ := ih hx
        exact ⟨b₀, List.mem_cons_of_mem _ hb0, he⟩

theorem filterPendingBatches_no_bid (pre post : List Batch) (B : Batch) (bid : Str)
    (ids : List Str)
    (hpre : ∀ x ∈ pre, x.batchId ≠ bid)
    (hpost : ∀ x ∈ post, x.batchId ≠ bid)
    (hcover : ∀ s ∈ B.suggestions, s.status = .pending → s.suggestionId ∈ ids) :
    ∀ b ∈ filterPendingBatches
        (if (B.suggestions.filter (fun s => !decide (s.suggestionId ∈ ids))).isEmpty
         then pre ++ post
         else pre ++
           ({ B with
              suggestions :=
                B.suggestions.filter (fun s => !decide (s.suggestionId ∈ ids)) } :: post)),
      b.batchId ≠ bid := by
  have hside : ∀ l : List Batch, (∀ x ∈ l, x.batchId ≠ bid) →
      ∀ b ∈ filterPendingBatches l, b.batchId ≠ bid := by
    intro l hl b hb
    obtain ⟨b₀, hb0, hbeq, _⟩ := mem_filterPendingBatches l b hb
    rw [hbeq]
    exact hl b₀ hb0
  have hmid : (B.suggestions.filter (fun s => !decide (s.suggestionId ∈ ids))).filter
      (fun s => decide (s.status = .pending)) = [] := by
    rw [List.filter_eq_nil_iff]
    intro s hs
    rw [List.mem_filter] at hs
    obtain ⟨hmem, hnotin⟩ := hs
    simp only [Bool.not_eq_true', decide_eq_false_iff_not] at hnotin
    simp only [decide_eq_true_eq]
    intro hpend
    exact hnotin (hcover s hmem hpend)
  by_cases hemp : (B.suggestions.filter (fun s => !decide (s.suggestionId ∈ ids))).isEmpty
  · rw [if_pos hemp, filterPendingBatches_append]
    intro b hb
    rcases List.mem_append.1 hb with hx | hx
    · exact hside pre hpre b hx
    · exact hside post hpost b hx
  · rw [if_neg hemp, filterPendingBatches_append]
    intro b hb
    rcases List.mem_append.1 hb with hx | hx
    · exact hside pre hpre b hx
    · rw [filterPendingBatches] at hx
      simp only [hmid, List.isEmpty_nil, if_true] at hx
      exact hside post hpost b hx

/-! ## Helper lemmas: the longest-common-substring search -/

theorem commonPrefixLen_le_left : ∀ a b : Str, commonPrefixLen a b ≤ a.length
  | [], _ => by simp [commonPrefixLen]
  | _ :: _, [] => by simp [commonPrefixLen]
  | a :: as, b :: bs => by
    by_cases h : a = b
    · simpa [commonPrefixLen, h, Nat.succ_le_succ_iff] using commonPrefixLen_le_left as bs
    · simp [commonPrefixLen, h]

theorem commonPrefixLen_le_right : ∀ a b : Str, commonPrefixLen a b ≤ b.length
  | [], _ => by simp [commonPrefixLen]
  | _ :: _, [] => by simp [commonPrefixLen]
  | a :: as, b :: bs => by
    by_cases h : a = b
    · simpa [commonPrefixLen, h, Nat.succ_le_succ_iff] using commonPrefixLen_le_right as bs
    · simp [commonPrefixLen, h]

theorem take_commonPrefixLen_eq : ∀ a b : Str,
    a.take (commonPrefixLen a b) = b.take (commonPrefixLen a b)
  | [], b => by simp [commonPrefixLen]
  | _ :: _, [] => by simp [commonPrefixLen]
  | a :: as, b :: bs => by
    by_cases h : a = b
    · simp [commonPrefixLen, h, take_commonPrefixLen_eq as bs]
    · simp [commonPrefixLen, h]

theorem le_commonPrefixLen : ∀ (k : Nat) (a b : Str), k ≤ a.length → k ≤ b.length →
    a.take k = b.take k → k ≤ commonPrefixLen a b
  | 0, _, _, _, _, _ => Nat.zero_le _
  | k + 1, [], _, h1, _, _ => by simp at h1
  | k + 1, _ :: _, [], _, h2, _ => by simp at h2
  | k + 1, a :: as, b :: bs, h1, h2, h3 => by
    simp only [List.take_succ_cons, List.cons.injEq] at h3
    obtain ⟨hab, htk⟩ := h3
    rw [commonPrefixLen, if_pos hab]
    exact Nat.succ_le_succ
      (le_commonPrefixLen k as bs (by simpa using h1) (by simpa using h2) htk)

theorem fuzzyStep_size_mono (x y : Str) (i : Nat) (best : MatchBlock) (j : Nat) :
    best.size ≤ (fuzzyStep x y i best j).size := by
  by_cases hc : best.size < commonPrefixLen (x.drop i) (y.drop j)
  · simp only [fuzzyStep, if_pos hc]
    exact Nat.le_of_lt hc
  · simp only [fuzzyStep, if_neg hc]
    exact Nat.le_refl _

theorem fuzzyStep_ge (x y : Str) (i : Nat) (best : MatchBlock) (j : Nat) :
    commonPrefixLen (x.drop i) (y.drop j) ≤ (fuzzyStep x y i best j).size := by
  by_cases hc : best.size < commonPrefixLen (x.drop i) (y.drop j)
  · simp only [fuzzyStep, if_pos hc]
    exact Nat.le_refl _
  · simp only [fuzzyStep, if_neg hc]
    exact Nat.le_of_not_lt hc

theorem fuzzyInner_cons (x y : Str) (i j : Nat) (js : List Nat) (best : MatchBlock) :
    fuzzyInner x y i (j :: js) best = fuzzyInner x y i js (fuzzyStep x y i best j) := rfl

theorem fuzzyOuter_cons (x y : Str) (i : Nat) (idxs : List Nat) (best : MatchBlock) :
    fuzzyOuter x y (i :: idxs) best =
      fuzzyOuter x y idxs (fuzzyInner x y i (List.range y.length) best) := rfl

theorem fuzzyInner_size_mono (x y : Str) (i : Nat) :
    ∀ (js : List Nat) (best : MatchBlock), best.size ≤ (fuzzyInner x y i js best).size
  | [], best => Nat.le_refl _
  | j :: rest, best =>
    Nat.le_trans (fuzzyStep_size_mono x y i best j)
      (fuzzyInner_size_mono x y i rest (fuzzyStep x y i best j))

theorem fuzzyInner_ge (x y : Str) (i : Nat) :
    ∀ (js : List Nat) (best : MatchBlock) (j : Nat), j ∈ js →
      commonPrefixLen (x.drop i) (y.drop j) ≤ (fuzzyInner x y i js best).size := by
  intro js
  induction js with
  | nil => intro best j hj; simp at hj
  | cons j₀ rest ih =>
    intro best j hj
    rcases List.mem_cons.1 hj with hj | hj
    · subst hj
      exact Nat.le_trans (fuzzyStep_ge x y i best j)
        (fuzzyInner_size_mono x y i rest (fuzzyStep x y i best j))
    · exact ih (fuzzyStep x y i best j₀) j hj

theorem fuzzyInner_cases (x y : Str) (i : Nat) :
    ∀ (js : List Nat) (best : MatchBlock),
      fuzzyInner x y i js best = best ∨
        ∃ j ∈ js, fuzzyInner x y i js best =
          ⟨i, j, commonPrefixLen (x.drop i) (y.drop j)⟩ := by
  intro js
  induction js with
  | nil => intro best; left; rfl
  | cons j₀ rest ih =>
    intro best
    have hstep : fuzzyStep x y i best j₀ = best ∨
        fuzzyStep x y i best j₀ = ⟨i, j₀, commonPrefixLen (x.drop i) (y.drop j₀)⟩ := by
      by_cases hc : best.size < commonPrefixLen (x.drop i) (y.drop j₀)
      · right; simp only [fuzzyStep, if_pos hc]
      · left; simp only [fuzzyStep, if_neg hc]
    rcases ih (fuzzyStep x y i best j₀) with hrec | ⟨j, hj, hrec⟩
    · rcases hstep with hs | hs
      · left
        rw [fuzzyInner_cons, hrec, hs]
      · right
        refine ⟨j₀, List.mem_cons_self _ _, ?_⟩
        rw [fuzzyInner_cons, hrec, hs]
    · right
      refine ⟨j, List.mem_cons_of_mem _ hj, ?_⟩
      rw [fuzzyInner_cons, hrec]

theorem fuzzyOuter_size_mono (x y : Str) :
    ∀ (idxs : List Nat) (best : MatchBlock), best.size ≤ (fuzzyOuter x y idxs best).size
  | [], best => Nat.le_refl _
  | i :: rest, best =>
    Nat.le_trans (fuzzyInner_size_mono x y i (List.range y.length) best)
      (fuzzyOuter_size_mono x y rest (fuzzyInner x y i (List.range y.length) best))

theorem fuzzyOuter_ge (x y : Str) :
    ∀ (idxs : List Nat) (best : MatchBlock) (i j : Nat), i ∈ idxs → j < y.length →
      commonPrefixLen (x.drop i) (y.drop j) ≤ (fuzzyOuter x y idxs best).size := by
  intro idxs
  induction idxs with
  | nil => intro best i j hi hj; simp at hi
  | cons i₀ rest ih =>
    intro best i j hi hj
    rcases List.mem_cons.1 hi with hi | hi
    · subst hi
      exact Nat.le_trans
        (fuzzyInner_ge x y i (List.range y.length) best j (List.mem_range.2 hj))
        (fuzzyOuter_size_mono x y rest (fuzzyInner x y i (List.range y.length) best))
    · exact ih (fuzzyInner x y i₀ (List.range y.length) best) i j hi hj

theorem fuzzyOuter_cases (x y : Str) :
    ∀ (idxs : List Nat) (best : MatchBlock),
      fuzzyOuter x y idxs best = best ∨
        ∃ i ∈ idxs, ∃ j, j < y.length ∧ fuzzyOuter x y idxs best =
          ⟨i, j, commonPrefixLen (x.drop i) (y.drop j)⟩ := by
  intro idxs
  induction idxs with
  | nil => intro best; left; rfl
  | cons i₀ rest ih =>
    intro best
    rcases ih (fuzzyInner x y i₀ (List.range y.length) best) with hrec | ⟨i, hi, j, hj, hrec⟩
    · rcases fuzzyInner_cases x y i₀ (List.range y.length) best with hs | ⟨j, hj, hs⟩
      · left
        rw [fuzzyOuter_cons, hrec, hs]
      · right
        refine ⟨i₀, List.mem_cons_self _ _, j, List.mem_range.1 hj, ?_⟩
        rw [fuzzyOuter_cons, hrec, hs]
    · right
      refine ⟨i, List.mem_cons_of_mem _ hi, j, hj, ?_⟩
      rw [fuzzyOuter_cons, hrec]

theorem findLongestMatch_valid (x y : Str) :
    (x.drop (findLongestMatch x y).a).take (findLongestMatch x y).size =
        (y.drop (findLongestMatch x y).b).take (findLongestMatch x y).size ∧
      (findLongestMatch x y).a + (findLongestMatch x y).size ≤ x.length ∧
      (findLongestMatch x y).b + (findLongestMatch x y).size ≤ y.length := by
  rcases fuzzyOuter_cases x y (List.range x.length) ⟨0, 0, 0⟩ with h | ⟨i, hi, j, hj, h⟩
  · rw [findLongestMatch, h]
    simp
  · rw [findLongestMatch, h]
    have hix : i < x.length := List.mem_range.1 hi
    have h1 := commonPrefixLen_le_left (x.drop i) (y.drop j)
    have h2 := commonPrefixLen_le_right (x.drop i) (y.drop j)
    rw [List.length_drop] at h1
    rw [List.length_drop] at h2
    refine ⟨take_commonPrefixLen_eq (x.drop i) (y.drop j), ?_, ?_⟩
    · show i + commonPrefixLen (x.drop i) (y.drop j) ≤ x.length
      omega
    · show j + commonPrefixLen (x.drop i) (y.drop j) ≤ y.length
      omega

theorem findLongestMatch_max (x y : Str) (i j k : Nat)
    (h1 : i + k ≤ x.length) (h2 : j + k ≤ y.length)
    (h3 : (x.drop i).take k = (y.drop j).take k) :
    k ≤ (findLongestMatch x y).size := by
  cases k with
  | zero => exact Nat.zero_le _
  | succ k₀ =>
    have hix : i < x.length := by omega
    have hjy : j < y.length := by omega
    have hk : k₀ + 1 ≤ commonPrefixLen (x.drop i) (y.drop j) := by
      refine le_commonPrefixLen (k₀ + 1) (x.drop i) (y.drop j) ?_ ?_ h3
      · rw [List.length_drop]; omega
      · rw [List.length_drop]; omega
    exact Nat.le_trans hk
      (fuzzyOuter_ge x y (List.range x.length) ⟨0, 0, 0⟩ i j (List.mem_range.2 hix) hjy)

/-! ## Helper lemmas: bulk revert -/

theorem mem_suggBps_cons (s : StoredSugg) (rest : List StoredSugg) (bp : Str)
    (h : bp ∈ suggBps rest) : bp ∈ suggBps (s :: rest) := by
  unfold suggBps at h ⊢
  rw [List.filterMap_cons]
  cases s.backupPath
  · exact h
  · exact List.mem_cons_of_mem _ h

theorem mem_suggFps_cons (s : StoredSugg) (rest : List StoredSugg) (fp : Str)
    (h : fp ∈ suggFps rest) : fp ∈ suggFps (s :: rest) := by
  unfold suggFps at h ⊢
  rw [List.map_cons]
  exact List.mem_cons_of_mem _ h

theorem self_mem_suggBps (s : StoredSugg) (rest : List StoredSugg) (bp : Str)
    (h : s.backupPath = some bp) : bp ∈ suggBps (s :: rest) := by
  unfold suggBps
  rw [List.filterMap_cons, h]
  exact List.mem_cons_self _ _

theorem self_mem_suggFps (s : StoredSugg) (rest : List StoredSugg) :
    s.filePath ∈ suggFps (s :: rest) := by
  unfold suggFps
  rw [List.map_cons]
  exact List.mem_cons_self _ _

theorem suggBps_append (l₁ l₂ : List StoredSugg) :
    suggBps (l₁ ++ l₂) = suggBps l₁ ++ suggBps l₂ := by
  simp [suggBps]

theorem suggFps_append (l₁ l₂ : List StoredSugg) :
    suggFps (l₁ ++ l₂) = suggFps l₁ ++ suggFps l₂ := by
  simp [suggFps]

theorem allSuggs_cons (b : Batch) (bs : List Batch) :
    allSuggs (b :: bs) = b.suggestions ++ allSuggs bs := by
  simp [allSuggs]

theorem revertSuggs_spec (fs₀ : FS) :
    ∀ (ss : List StoredSugg) (fs₁ : FS),
    (∀ bp ∈ suggBps ss, fsLookup fs₁ bp = fsLookup fs₀ bp) →
    (suggBps ss).Nodup →
    (∀ bp ∈ suggBps ss, ∀ fp ∈ suggFps ss, bp ≠ fp) →
    (revertSuggs ss fs₁).2.1 = ss.filter (fun s => !backupLive fs₀ s) ∧
    (revertSuggs ss fs₁).2.2.1 = (ss.filter (fun s => backupLive fs₀ s)).length ∧
    (revertSuggs ss fs₁).2.2.2 = (ss.filter (fun s => appliedNoBackup fs₀ s)).length ∧
    (∀ p, p ∉ suggBps ss → p ∉ suggFps ss →
      fsLookup (revertSuggs ss fs₁).1 p = fsLookup fs₁ p) := by
  intro ss
  induction ss with
  | nil =>
    intro fs₁ _ _ _
    simp [revertSuggs, suggBps, suggFps]
  | cons s rest ih =>
    intro fs₁ hinv hnd hdis
    have hinv₁ : ∀ bp ∈ suggBps rest, fsLookup fs₁ bp = fsLookup fs₀ bp :=
      fun bp h => hinv bp (mem_suggBps_cons s rest bp h)
    have hnd₁ : (suggBps rest).Nodup := by
      unfold suggBps at hnd ⊢
      rw [List.filterMap_cons] at hnd
      cases h : s.backupPath with
      | none => rw [h] at hnd; exact hnd
      | some bp => rw [h] at hnd; exact (List.nodup_cons.1 hnd).2
    have hdis₁ : ∀ bp ∈ suggBps rest, ∀ fp ∈ suggFps rest, bp ≠ fp :=
      fun bp hb fp hf =>
        hdis bp (mem_suggBps_cons s rest bp hb) fp (mem_suggFps_cons s rest fp hf)
    by_cases hst : s.status = Status.successfullyApplied
    · by_cases hhb : hasBackup fs₁ s = true
      · -- reverted and dropped
        obtain ⟨bp₀, hbp⟩ : ∃ bp, s.backupPath = some bp := by
          cases h : s.backupPath
          · rw [hasBackup, h] at hhb; simp at hhb
          · exact ⟨_, rfl⟩
        rw [hasBackup, hbp, Bool.and_eq_true] at hhb
        obtain ⟨hbpe, hbsome⟩ := hhb
        obtain ⟨c, hc⟩ := Option.isSome_iff_exists.1 hbsome
        have hbmem : bp₀ ∈ suggBps (s :: rest) := self_mem_suggBps s rest bp₀ hbp
        have hfmem : s.filePath ∈ suggFps (s :: rest) := self_mem_suggFps s rest
        have hne : bp₀ ≠ s.filePath := hdis bp₀ hbmem s.filePath hfmem
        have hc₀ : fsLookup fs₀ bp₀ = some c := by rw [← hinv bp₀ hbmem]; exact hc
        have hbl : backupLive fs₀ s = true := by
          simp [backupLive, hst, hasBackup, hbp, hc₀, hbpe]
        have hbps_cons : suggBps (s :: rest) = bp₀ :: suggBps rest := by
          unfold suggBps
          rw [List.filterMap_cons, hbp]
        have hbnotin : bp₀ ∉ suggBps rest := by
          rw [hbps_cons] at hnd
          exact (List.nodup_cons.1 hnd).1
        have hinv₂ : ∀ bp ∈ suggBps rest,
            fsLookup (fsMove fs₁ bp₀ s.filePath) bp = fsLookup fs₀ bp := by
          intro bp hb
          have h₁ : bp ≠ s.filePath :=
            hdis bp (mem_suggBps_cons s rest bp hb) s.filePath hfmem
          have h₂ : bp ≠ bp₀ := fun hh => hbnotin (hh ▸ hb)
          rw [fsLookup_fsMove_other fs₁ bp₀ s.filePath c bp hc hne h₁ h₂]
          exact hinv₁ bp hb
        rcases hrec : revertSuggs rest (fsMove fs₁ bp₀ s.filePath) with ⟨fs₂, surv, rc, fc⟩
        have hIH := ih (fsMove fs₁ bp₀ s.filePath) hinv₂ hnd₁ hdis₁
        simp only [hrec] at hIH
        obtain ⟨e1, e2, e3, e4⟩ := hIH
        have hstep : revertSuggs (s :: rest) fs₁ = (fs₂, surv, rc + 1, fc) := by
          rw [revertSuggs, if_pos hst, if_pos (by simp [hasBackup, hbp, hc, hbpe])]
          rw [hbp]
          simp only [Option.getD_some, hrec]
        rw [hstep]
        refine ⟨?_, ?_, ?_, ?_⟩
        · simp only [List.filter_cons, hbl, Bool.not_true, if_false]
          exact e1
        · simp only [List.filter_cons, hbl, if_true, List.length_cons]
          simpa using e2
        · have hanb : appliedNoBackup fs₀ s = false := by
            simp only [backupLive, Bool.and_eq_true] at hbl
            simp [appliedNoBackup, hbl.2]
          simp only [List.filter_cons, hanb, if_false]
          exact e3
        · intro p hpb hpf
          have h₁ : p ∉ suggBps rest := fun hh => hpb (mem_suggBps_cons s rest p hh)
          have h₂ : p ∉ suggFps rest := fun hh => hpf (mem_suggFps_cons s rest p hh)
          have h₃ : p ≠ bp₀ := fun hh => hpb (hh ▸ hbmem)
          have h₄ : p ≠ s.filePath := fun hh => hpf (hh ▸ hfmem)
          rw [e4 p h₁ h₂]
          exact fsLookup_fsMove_other fs₁ bp₀ s.filePath c p hc hne h₄ h₃
      · -- failed: backup missing, retained
        have hhb₀ : hasBackup fs₀ s = false := by
          cases h : s.backupPath with
          | none => simp [hasBackup, h]
          | some bp =>
            have hm : bp ∈ suggBps (s :: rest) := self_mem_suggBps s rest bp h
            have heq := hinv bp hm
            simp only [hasBackup, h] at hhb ⊢
            rw [← heq]
            simpa using hhb
        have hbl : backupLive fs₀ s = false := by simp [backupLive, hhb₀]
        have hanb : appliedNoBackup fs₀ s = true := by simp [appliedNoBackup, hst, hhb₀]
        rcases hrec : revertSuggs rest fs₁ with ⟨fs₂, surv, rc, fc⟩
        have hIH := ih fs₁ hinv₁ hnd₁ hdis₁
        simp only [hrec] at hIH
        obtain ⟨e1, e2, e3, e4⟩ := hIH
        have hstep : revertSuggs (s :: rest) fs₁ = (fs₂, s :: surv, rc, fc + 1) := by
          rw [revertSuggs, if_pos hst, if_neg (by simp [hhb])]
          simp only [hrec]
        rw [hstep]
        refine ⟨?_, ?_, ?_, ?_⟩
        · simp only [List.filter_cons, hbl, Bool.not_false, if_true]
          rw [e1]
        · simp only [List.filter_cons, hbl, if_false]
          exact e2
        · simp only [List.filter_cons, hanb, if_true, List.length_cons]
          simpa using e3
        · intro p hpb hpf
          exact e4 p (fun hh => hpb (mem_suggBps_cons s rest p hh))
            (fun hh => hpf (mem_suggFps_cons s rest p hh))
    · -- other statuses: retained unchanged
      have hbl : backupLive fs₀ s = false := by simp [backupLive, hst]
      have hanb : appliedNoBackup fs₀ s = false := by simp [appliedNoBackup, hst]
      rcases hrec : revertSuggs rest fs₁ with ⟨fs₂, surv, rc, fc⟩
      have hIH := ih fs₁ hinv₁ hnd₁ hdis₁
      simp only [hrec] at hIH
      obtain ⟨e1, e2, e3, e4⟩ := hIH
      have hstep : revertSuggs (s :: rest) fs₁ = (fs₂, s :: surv, rc, fc) := by
        rw [revertSuggs, if_neg hst]
        simp only [hrec]
      rw [hstep]
      refine ⟨?_, ?_, ?_, ?_⟩
      · simp only [List.filter_cons, hbl, Bool.not_false, if_true]
        rw [e1]
      · simp only [List.filter_cons, hbl, if_false]
        exact e2
      · simp only [List.filter_cons, hanb, if_false]
        exact e3
      · intro p hpb hpf
        exact e4 p (fun hh => hpb (mem_suggBps_cons s rest p hh))
          (fun hh => hpf (mem_suggFps_cons s rest p hh))

theorem revertAllBatches_spec (fs₀ : FS) :
    ∀ (bs : List Batch) (fs₁ : FS),
    (∀ bp ∈ suggBps (allSuggs bs), fsLookup fs₁ bp = fsLookup fs₀ bp) →
    (suggBps (allSuggs bs)).Nodup →
    (∀ bp ∈ suggBps (allSuggs bs), ∀ fp ∈ suggFps (allSuggs bs), bp ≠ fp) →
    (revertAllBatches bs fs₁).2.1 =
      bs.filterMap (fun b =>
        if (b.suggestions.filter (fun s => !backupLive fs₀ s)).isEmpty then none
        else some { b with
                    suggestions := b.suggestions.filter (fun s => !backupLive fs₀ s) }) ∧
    (revertAllBatches bs fs₁).2.2.1 =
      ((allSuggs bs).filter (fun s => backupLive fs₀ s)).length ∧
    (revertAllBatches bs fs₁).2.2.2 =
      ((allSuggs bs).filter (fun s => appliedNoBackup fs₀ s)).length ∧
    (∀ p, p ∉ suggBps (allSuggs bs) → p ∉ suggFps (allSuggs bs) →
      fsLookup (revertAllBatches bs fs₁).1 p = fsLookup fs₁ p) := by
  intro bs
  induction bs with
  | nil =>
    intro fs₁ _ _ _
    simp [revertAllBatches, allSuggs, suggBps, suggFps]
  | cons b rest ih =>
    intro fs₁ hinv hnd hdis
    have hbps : suggBps (allSuggs (b :: rest)) =
        suggBps b.suggestions ++ suggBps (allSuggs rest) := by
      rw [allSuggs_cons, suggBps_append]
    have hfps : suggFps (allSuggs (b :: rest)) =
        suggFps b.suggestions ++ suggFps (allSuggs rest) := by
      rw [allSuggs_cons, suggFps_append]
    have hmemLb : ∀ bp ∈ suggBps b.suggestions, bp ∈ suggBps (allSuggs (b :: rest)) := by
      rw [hbps]; exact fun bp h => List.mem_append_left _ h
    have hmemRb : ∀ bp ∈ suggBps (allSuggs rest), bp ∈ suggBps (allSuggs (b :: rest)) := by
      rw [hbps]; exact fun bp h => List.mem_append_right _ h
    have hmemLf : ∀ fp ∈ suggFps b.suggestions, fp ∈ suggFps (allSuggs (b :: rest)) := by
      rw [hfps]; exact fun fp h => List.mem_append_left _ h
    have hmemRf : ∀ fp ∈ suggFps (allSuggs rest), fp ∈ suggFps (allSuggs (b :: rest)) := by
      rw [hfps]; exact fun fp h => List.mem_append_right _ h
    have hndparts := List.nodup_append.1 (hbps ▸ hnd)
    have hinvL : ∀ bp ∈ suggBps b.suggestions, fsLookup fs₁ bp = fsLookup fs₀ bp :=
      fun bp h => hinv bp (hmemLb bp h)
    have hdisL : ∀ bp ∈ suggBps b.suggestions, ∀ fp ∈ suggFps b.suggestions, bp ≠ fp :=
      fun bp hb fp hf => hdis bp (hmemLb bp hb) fp (hmemLf fp hf)
    rcases h1 : revertSuggs b.suggestions fs₁ with ⟨fsA, surv, rc, fc⟩
    have S := revertSuggs_spec fs₀ b.suggestions fs₁ hinvL hndparts.1 hdisL
    simp only [h1] at S
    obtain ⟨s1, s2, s3, s4⟩ := S
    have hinvR : ∀ bp ∈ suggBps (allSuggs rest), fsLookup fsA bp = fsLookup fs₀ bp := by
      intro bp h
      have hnotb : bp ∉ suggBps b.suggestions := fun hc => hndparts.2.2 hc h
      have hnotf : bp ∉ suggFps b.suggestions := fun hf =>
        (hdis bp (hmemRb bp h) bp (hmemLf bp hf)) rfl
      rw [s4 bp hnotb hnotf]
      exact hinv bp (hmemRb bp h)
    have hdisR : ∀ bp ∈ suggBps (allSuggs rest), ∀ fp ∈ suggFps (allSuggs rest), bp ≠ fp :=
      fun bp hb fp hf => hdis bp (hmemRb bp hb) fp (hmemRf fp hf)
    rcases h2 : revertAllBatches rest fsA with ⟨fsB, bs₁, rc₁, fc₁⟩
    have hIH := ih fsA hinvR hndparts.2.1 hdisR
    simp only [h2] at hIH
    obtain ⟨e1, e2, e3, e4⟩ := hIH
    have hstep : revertAllBatches (b :: rest) fs₁ =
        (fsB, (if surv.isEmpty then bs₁ else { b with suggestions := surv } :: bs₁),
         rc + rc₁, fc + fc₁) := by
      rw [revertAllBatches]
      simp only [h1, h2]
    rw [hstep]
    refine ⟨?_, ?_, ?_, ?_⟩
    · by_cases he : (b.suggestions.filter (fun s => !backupLive fs₀ s)).isEmpty
      · rw [s1, if_pos he, e1, List.filterMap_cons]
        simp only [he, if_true]
      · rw [s1, if_neg he, e1, List.filterMap_cons]
        simp [he]
    · rw [allSuggs_cons, List.filter_append, List.length_append, s2, e2]
    · rw [allSuggs_cons, List.filter_append, List.length_append, s3, e3]
    · intro p hpb hpf
      have h₁ : p ∉ suggBps (allSuggs rest) := fun hh => hpb (hmemRb p hh)
      have h₂ : p ∉ suggFps (allSuggs rest) := fun hh => hpf (hmemRf p hh)
      have h₃ : p ∉ suggBps b.suggestions := fun hh => hpb (hmemLb p hh)
      have h₄ : p ∉ suggFps b.suggestions := fun hh => hpf (hmemLf p hh)
      rw [e4 p h₁ h₂]
      exact s4 p h₃ h₄

/-! ## Claim theorems -/

/-- Claim C2: for every approved suggestion whose file exists, `apply`
creates a backup file — the (normalized) original path plus the time-derived
`.backup.` suffix — holding exactly the unmodified pre-change content, in
both the in-place-replace branch and the append-as-addition branch, before
the document file is written; no path other than the document file and its
backup is touched, so no write to the document occurs without the backup. -/
theorem c2_backup_before_write (s : StoredSugg) (ts : Str) (fs : FS) (content : Str)
    (h : fsLookup fs (normalizePath s.filePath) = some content) :
    ∃ fs₁ r, applySuggestionToFile s ts fs = .ok (fs₁, r) ∧
      r.backupPath = normalizePath s.filePath ++ backupMarker ++ ts ∧
      fsLookup fs₁ r.backupPath = some content ∧
      r.backupPath ≠ normalizePath s.filePath ∧
      (∀ q, q ≠ normalizePath s.filePath → q ≠ r.backupPath →
        fsLookup fs₁ q = fsLookup fs q) := by
  have hne : normalizePath s.filePath ++ backupMarker ++ ts ≠ normalizePath s.filePath :=
    backupPath_ne (normalizePath s.filePath) ts
  cases hsub : isSubstr s.originalContent content with
  | true =>
    refine ⟨_, _, applySuggestionToFile_subst s ts fs content h hsub, rfl, ?_, hne, ?_⟩
    · rw [fsLookup_fsWrite_ne _ _ _ _ hne, fsLookup_fsWrite_self]
    · intro q hq1 hq2
      rw [fsLookup_fsWrite_ne _ _ _ _ hq1, fsLookup_fsWrite_ne _ _ _ _ hq2]
  | false =>
    refine ⟨_, _, applySuggestionToFile_append s ts fs content h hsub, rfl, ?_, hne, ?_⟩
    · rw [fsLookup_fsWrite_ne _ _ _ _ hne, fsLookup_fsWrite_self]
    · intro q hq1 hq2
      rw [fsLookup_fsWrite_ne _ _ _ _ hq1, fsLookup_fsWrite_ne _ _ _ _ hq2]

/-- Witness for C2 at a concrete input. -/
theorem c2_backup_before_write_witness :
    ∃ fs₁ r,
      applySuggestionToFile
        ⟨"b1_0".toList, "doc.md".toList, "ab".toList, "c".toList, .pending, none⟩
        ("T0".toList) [("doc.md".toList, "xaby".toList)] = .ok (fs₁, r) ∧
      r.backupPath = normalizePath ("doc.md".toList) ++ backupMarker ++ "T0".toList ∧
      fsLookup fs₁ r.backupPath = some ("xaby".toList) ∧
      r.backupPath ≠ normalizePath ("doc.md".toList) ∧
      (∀ q, q ≠ normalizePath ("doc.md".toList) → q ≠ r.backupPath →
        fsLookup fs₁ q = fsLookup [("doc.md".toList, "xaby".toList)] q) :=
  c2_backup_before_write
    ⟨"b1_0".toList, "doc.md".toList, "ab".toList, "c".toList, .pending, none⟩
    ("T0".toList) [("doc.md".toList, "xaby".toList)] ("xaby".toList) (by decide)

/-- Claim C3 counterexample: with file content `"abab"`, original content
`"ab"` and suggested content `"c"`, the code writes `"cc"` (every occurrence
replaced), not `"cab"` (only the first occurrence replaced) as the claim
states. -/
theorem c3_counterexample :
    (match applySuggestionToFile
        ⟨"b1_0".toList, "doc.md".toList, "ab".toList, "c".toList, .pending, none⟩
        ("T0".toList) [("doc.md".toList, "abab".toList)] with
     | .ok p => fsLookup p.1 ("doc.md".toList)
     | .err _ => none) = some ("cc".toList) ∧
    replaceFirst ("ab".toList) ("c".toList) ("abab".toList) = "cab".toList ∧
    ("cc".toList : Str) ≠ "cab".toList := by decide

/-- Claim C3 (amended): for every approved suggestion whose file exists, if
`original_content` occurs in the file then apply writes the file with EVERY
(left-to-right, non-overlapping) occurrence replaced by `suggested_content`
— not only the first — and returns status applied; if it is not found
verbatim, apply does not fail but appends `suggested_content` as a trailing
annotated block and returns status applied_as_addition. -/
theorem c3_apply_two_branches (s : StoredSugg) (ts : Str) (fs : FS) (content : Str)
    (h : fsLookup fs (normalizePath s.filePath) = some content) :
    (isSubstr s.originalContent content = true →
      ∃ fs₁ r, applySuggestionToFile s ts fs = .ok (fs₁, r) ∧ r.kind = .applied ∧
        fsLookup fs₁ (normalizePath s.filePath) =
          some (replaceAll s.originalContent s.suggestedContent content)) ∧
    (isSubstr s.originalContent content = false →
      ∃ fs₁ r, applySuggestionToFile s ts fs = .ok (fs₁, r) ∧ r.kind = .appliedAsAddition ∧
        fsLookup fs₁ (normalizePath s.filePath) =
          some (content ++ annotatedBlock s.suggestedContent)) := by
  constructor
  · intro hsub
    refine ⟨_, _, applySuggestionToFile_subst s ts fs content h hsub, rfl, ?_⟩
    rw [fsLookup_fsWrite_self]
  · intro hsub
    refine ⟨_, _, applySuggestionToFile_append s ts fs content h hsub, rfl, ?_⟩
    rw [fsLookup_fsWrite_self]

/-- Witness for the amended C3 at a concrete input. -/
theorem c3_apply_two_branches_witness :
    (isSubstr ("ab".toList) ("abab".toList) = true →
      ∃ fs₁ r, applySuggestionToFile
          ⟨"b1_0".toList, "doc.md".toList, "ab".toList, "c".toList, .pending, none⟩
          ("T0".toList) [("doc.md".toList, "abab".toList)] = .ok (fs₁, r) ∧
        r.kind = .applied ∧
        fsLookup fs₁ (normalizePath ("doc.md".toList)) =
          some (replaceAll ("ab".toList) ("c".toList) ("abab".toList))) ∧
    (isSubstr ("ab".toList) ("abab".toList) = false →
      ∃ fs₁ r, applySuggestionToFile
          ⟨"b1_0".toList, "doc.md".toList, "ab".toList, "c".toList, .pending, none⟩
          ("T0".toList) [("doc.md".toList, "abab".toList)] = .ok (fs₁, r) ∧
        r.kind = .appliedAsAddition ∧
        fsLookup fs₁ (normalizePath ("doc.md".toList)) =
          some ("abab".toList ++ annotatedBlock ("c".toList))) :=
  c3_apply_two_branches
    ⟨"b1_0".toList, "doc.md".toList, "ab".toList, "c".toList, .pending, none⟩
    ("T0".toList) [("doc.md".toList, "abab".toList)] ("abab".toList) (by decide)

/-- Claim C1: a suggestion applied by approve (reaching successfully_applied
with its backup file present) and whose document file is not otherwise
modified in between is restored byte-for-byte by `revertOne`, and the
suggestion ends in status reverted.  The hypotheses say: the batch is found,
exactly this suggestion is named, its (backslash-free) file exists with some
content, and its id is not already present in the applied store. -/
theorem c1_apply_revert_roundtrip
    (st : MState) (bid : Str) (ids : List Str) (ts : Nat → Str)
    (pre post : List Batch) (B : Batch) (sg : StoredSugg) (content : Str)
    (hx : extractBatch st.pending bid = some (pre, B, post))
    (hflt : B.suggestions.filter (fun s => decide (s.suggestionId ∈ ids)) = [sg])
    (hnp : normalizePath sg.filePath = sg.filePath)
    (hc : fsLookup st.fs sg.filePath = some content)
    (hnotin : findApplied st.applied sg.suggestionId = none) :
    ∃ st₁ k, approveSuggestions st bid ids ts = (st₁, .ok k) ∧
      k.approvedCount = 1 ∧ k.failedCount = 0 ∧
      ∃ st₂ r, revertUpdate st₁ sg.suggestionId = (st₂, .ok r) ∧
        fsLookup st₂.fs sg.filePath = some content ∧
        ∃ s₂, findApplied st₂.applied sg.suggestionId = some s₂ ∧
          s₂.status = .reverted := by
  have hcn : fsLookup st.fs (normalizePath sg.filePath) = some content := by
    rw [hnp]; exact hc
  have happly : ∃ upd kd, applySuggestionToFile sg (ts 0) st.fs =
      .ok (fsWrite (fsWrite st.fs (sg.filePath ++ backupMarker ++ ts 0) content)
             sg.filePath upd,
           ⟨sg.suggestionId, sg.filePath, sg.filePath ++ backupMarker ++ ts 0, kd⟩) := by
    cases hsub : isSubstr sg.originalContent content with
    | true =>
      have happ := applySuggestionToFile_subst sg (ts 0) st.fs content hcn hsub
      rw [hnp] at happ
      exact ⟨replaceAll sg.originalContent sg.suggestedContent content,
        ApplyKind.applied, happ⟩
    | false =>
      have happ := applySuggestionToFile_append sg (ts 0) st.fs content hcn hsub
      rw [hnp] at happ
      exact ⟨content ++ annotatedBlock sg.suggestedContent,
        ApplyKind.appliedAsAddition, happ⟩
  obtain ⟨upd, kd, happly⟩ := happly
  have happall : applyAll ts [sg] st.fs 0 =
      (fsWrite (fsWrite st.fs (sg.filePath ++ backupMarker ++ ts 0) content) sg.filePath upd,
       [{ sg with
          status := Status.successfullyApplied
          backupPath := some (sg.filePath ++ backupMarker ++ ts 0) }]) := by
    simp [applyAll, happly]
  have happrove : approveSuggestions st bid ids ts =
      (⟨(if (B.suggestions.filter (fun s => !decide (s.suggestionId ∈ ids))).isEmpty
          then pre ++ post
          else pre ++ ({ B with
            suggestions :=
              B.suggestions.filter (fun s => !decide (s.suggestionId ∈ ids)) } :: post)),
        moveToApplied st.applied bid
          [{ sg with
             status := Status.successfullyApplied
             backupPath := some (sg.filePath ++ backupMarker ++ ts 0) }],
        fsWrite (fsWrite st.fs (sg.filePath ++ backupMarker ++ ts 0) content)
          sg.filePath upd⟩,
       .ok ⟨1, 0⟩) := by
    rw [approveSuggestions, hx]
    simp only [hflt, happall, List.isEmpty_cons, List.length_cons, List.length_nil]
    simp
  refine ⟨_, _, happrove, rfl, rfl, ?_⟩
  have hfind : findApplied
      (moveToApplied st.applied bid
        [{ sg with
           status := Status.successfullyApplied
           backupPath := some (sg.filePath ++ backupMarker ++ ts 0) }])
      sg.suggestionId =
      some { sg with
             status := Status.successfullyApplied
             backupPath := some (sg.filePath ++ backupMarker ++ ts 0) } :=
    findApplied_moveToApplied st.applied bid _ hnotin
  have hlook : fsLookup
      (fsWrite (fsWrite st.fs (sg.filePath ++ backupMarker ++ ts 0) content) sg.filePath upd)
      (sg.filePath ++ backupMarker ++ ts 0) = some content := by
    rw [fsLookup_fsWrite_ne _ _ _ _ (backupPath_ne sg.filePath (ts 0)),
      fsLookup_fsWrite_self]
  have hrev : revertUpdate
      ⟨(if (B.suggestions.filter (fun s => !decide (s.suggestionId ∈ ids))).isEmpty
          then pre ++ post
          else pre ++ ({ B with
            suggestions :=
              B.suggestions.filter (fun s => !decide (s.suggestionId ∈ ids)) } :: post)),
        moveToApplied st.applied bid
          [{ sg with
             status := Status.successfullyApplied
             backupPath := some (sg.filePath ++ backupMarker ++ ts 0) }],
        fsWrite (fsWrite st.fs (sg.filePath ++ backupMarker ++ ts 0) content)
          sg.filePath upd⟩ sg.suggestionId =
      (⟨(if (B.suggestions.filter (fun s => !decide (s.suggestionId ∈ ids))).isEmpty
          then pre ++ post
          else pre ++ ({ B with
            suggestions :=
              B.suggestions.filter (fun s => !decide (s.suggestionId ∈ ids)) } :: post)),
        setReverted
          (moveToApplied st.applied bid
            [{ sg with
               status := Status.successfullyApplied
               backupPath := some (sg.filePath ++ backupMarker ++ ts 0) }])
          sg.suggestionId,
        fsMove
          (fsWrite (fsWrite st.fs (sg.filePath ++ backupMarker ++ ts 0) content)
            sg.filePath upd)
          (sg.filePath ++ backupMarker ++ ts 0) sg.filePath⟩,
       .ok ⟨sg.suggestionId, sg.filePath⟩) := by
    rw [revertUpdate]
    simp only [hfind]
    have hmne : backupMarker ≠ [] := by decide
    simp only [List.append_assoc] at hlook
    simp [hlook, hmne]
  refine ⟨_, _, hrev, ?_, ?_⟩
  · exact fsLookup_fsMove_dst _ _ _ _ hlook (backupPath_ne sg.filePath (ts 0))
  · exact ⟨_, findApplied_setReverted _ _ _ hfind, rfl⟩

/-- Witness for C1 at a concrete input. -/
theorem c1_apply_revert_roundtrip_witness :
    ∃ st₁ k,
      approveSuggestions
        ⟨[⟨"b1".toList,
           [⟨"b1_0".toList, "doc.md".toList, "ab".toList, "c".toList, .pending, none⟩]⟩],
         [], [("doc.md".toList, "xaby".toList)]⟩
        ("b1".toList) ["b1_0".toList] (fun _ => "T0".toList) = (st₁, .ok k) ∧
      k.approvedCount = 1 ∧ k.failedCount = 0 ∧
      ∃ st₂ r, revertUpdate st₁ ("b1_0".toList) = (st₂, .ok r) ∧
        fsLookup st₂.fs ("doc.md".toList) = some ("xaby".toList) ∧
        ∃ s₂, findApplied st₂.applied ("b1_0".toList) = some s₂ ∧
          s₂.status = .reverted :=
  c1_apply_revert_roundtrip
    ⟨[⟨"b1".toList,
       [⟨"b1_0".toList, "doc.md".toList, "ab".toList, "c".toList, .pending, none⟩]⟩],
     [], [("doc.md".toList, "xaby".toList)]⟩
    ("b1".toList) ["b1_0".toList] (fun _ => "T0".toList) [] []
    ⟨"b1".toList,
     [⟨"b1_0".toList, "doc.md".toList, "ab".toList, "c".toList, .pending, none⟩]⟩
    ⟨"b1_0".toList, "doc.md".toList, "ab".toList, "c".toList, .pending, none⟩
    ("xaby".toList) (by decide) (by decide) (by decide) (by decide) (by decide)

/-- A helper fact: the empty string is a substring of every string. -/
theorem isSubstr_nil_left (s : Str) : isSubstr [] s = true := by
  cases s <;> simp [isSubstr, isPrefixList]

/-- Claim C4: for a proposal that is neither an exact nor a
normalized-substring match of the section content, the suggestion is kept
exactly when the longest common contiguous substring is longer than 80% of
the proposal (the float test `match.size / len > 0.8` stated here over ℚ);
when kept, its original_content is that substring taken from the document
text, its confidence is forced to the fixed ceiling 0.6, and otherwise the
suggestion is dropped (never persisted).  The last two conjuncts certify
that the block found is a genuine common substring and is longest. -/
theorem c4_fuzzy_tier (d : SuggRaw) (sec : DocSection)
    (h1 : isSubstr d.origContent sec.content = false)
    (h2 : (!(normalizeText d.origContent).isEmpty &&
           isSubstr (normalizeText d.origContent) (normalizeText sec.content)) = false) :
    ((4 : ℚ)/5 < ((findLongestMatch d.origContent sec.content).size : ℚ) /
        (d.origContent.length : ℚ) →
      processSuggestion d sec =
        some ⟨sec.id, sec.title, sec.filePath,
          (sec.content.drop (findLongestMatch d.origContent sec.content).b).take
            (findLongestMatch d.origContent sec.content).size,
          d.suggContent, d.changeType, confCeiling, d.reasoning ++ fuzzyNote⟩) ∧
    (¬ ((4 : ℚ)/5 < ((findLongestMatch d.origContent sec.content).size : ℚ) /
        (d.origContent.length : ℚ)) →
      processSuggestion d sec = none) ∧
    ((d.origContent.drop (findLongestMatch d.origContent sec.content).a).take
        (findLongestMatch d.origContent sec.content).size =
      (sec.content.drop (findLongestMatch d.origContent sec.content).b).take
        (findLongestMatch d.origContent sec.content).size) ∧
    (∀ i j k, i + k ≤ d.origContent.length → j + k ≤ sec.content.length →
      (d.origContent.drop i).take k = (sec.content.drop j).take k →
      k ≤ (findLongestMatch d.origContent sec.content).size) ∧
    confCeiling = 3/5 := by
  have hne : d.origContent ≠ [] := by
    intro he
    rw [he, isSubstr_nil_left] at h1
    simp at h1
  have hlen : 0 < d.origContent.length := List.length_pos.2 hne
  have hlenQ : (0 : ℚ) < (d.origContent.length : ℚ) := by exact_mod_cast hlen
  have hiff : ((4 : ℚ)/5 < ((findLongestMatch d.origContent sec.content).size : ℚ) /
      (d.origContent.length : ℚ)) ↔
      4 * d.origContent.length < 5 * (findLongestMatch d.origContent sec.content).size := by
    rw [div_lt_div_iff₀ (by norm_num) hlenQ]
    constructor
    · intro h
      have h' : (4 * d.origContent.length : ℚ) <
          5 * (findLongestMatch d.origContent sec.content).size := by linarith
      exact_mod_cast h'
    · intro h
      have h' : (4 * d.origContent.length : ℚ) <
          5 * (findLongestMatch d.origContent sec.content).size := by exact_mod_cast h
      linarith
  refine ⟨?_, ?_, (findLongestMatch_valid d.origContent sec.content).1,
    findLongestMatch_max d.origContent sec.content, ?_⟩
  · intro hq
    rw [hiff] at hq
    have hsize : 0 < (findLongestMatch d.origContent sec.content).size := by omega
    rw [processSuggestion]
    simp only [h1, Bool.false_eq_true, if_false, h2]
    rw [if_pos ⟨hsize, hq⟩]
  · intro hq
    rw [hiff] at hq
    rw [processSuggestion]
    simp only [h1, Bool.false_eq_true, if_false, h2]
    rw [if_neg (fun hc => hq hc.2)]
  · rw [confCeiling, ratLT, Rat.mk'_eq_divInt]
    norm_num [Rat.divInt_eq_div]

/-- Witness for C4 at a concrete input. -/
theorem c4_fuzzy_tier_witness :
    ((4 : ℚ)/5 < ((findLongestMatch ("abcdef".toList) ("xxabcdeyy".toList)).size : ℚ) /
        (("abcdef".toList : Str).length : ℚ) →
      processSuggestion
        ⟨"abcdef".toList, "NEW".toList, "update".toList,
         ratLT 1 2 (by norm_num) (by norm_num), "r".toList⟩
        ⟨"s1".toList, "T".toList, "xxabcdeyy".toList, "f.md".toList⟩ =
        some ⟨"s1".toList, "T".toList, "f.md".toList,
          (("xxabcdeyy".toList : Str).drop
            (findLongestMatch ("abcdef".toList) ("xxabcdeyy".toList)).b).take
            (findLongestMatch ("abcdef".toList) ("xxabcdeyy".toList)).size,
          "NEW".toList, "update".toList, confCeiling,
          "r".toList ++ fuzzyNote⟩) ∧
    (¬ ((4 : ℚ)/5 < ((findLongestMatch ("abcdef".toList) ("xxabcdeyy".toList)).size : ℚ) /
        (("abcdef".toList : Str).length : ℚ)) →
      processSuggestion
        ⟨"abcdef".toList, "NEW".toList, "update".toList,
         ratLT 1 2 (by norm_num) (by norm_num), "r".toList⟩
        ⟨"s1".toList, "T".toList, "xxabcdeyy".toList, "f.md".toList⟩ = none) ∧
    ((("abcdef".toList : Str).drop
        (findLongestMatch ("abcdef".toList) ("xxabcdeyy".toList)).a).take
        (findLongestMatch ("abcdef".toList) ("xxabcdeyy".toList)).size =
      (("xxabcdeyy".toList : Str).drop
        (findLongestMatch ("abcdef".toList) ("xxabcdeyy".toList)).b).take
        (findLongestMatch ("abcdef".toList) ("xxabcdeyy".toList)).size) ∧
    (∀ i j k, i + k ≤ ("abcdef".toList : Str).length →
      j + k ≤ ("xxabcdeyy".toList : Str).length →
      (("abcdef".toList : Str).drop i).take k = (("xxabcdeyy".toList : Str).drop j).take k →
      k ≤ (findLongestMatch ("abcdef".toList) ("xxabcdeyy".toList)).size) ∧
    confCeiling = 3/5 :=
  c4_fuzzy_tier
    ⟨"abcdef".toList, "NEW".toList, "update".toList,
     ratLT 1 2 (by norm_num) (by norm_num), "r".toList⟩
    ⟨"s1".toList, "T".toList, "xxabcdeyy".toList, "f.md".toList⟩
    (by decide) (by decide)

/-- Claim C5 counterexample: a fuzzy-matched suggestion whose generator
supplied confidence 0.5 is stored with confidence 0.6 — above, not below,
the supplied score — and an exact-tier suggestion whose generator supplied
1.5 is stored with 1.5, outside [0,1]: the stored score is not validated. -/
theorem c5_counterexample :
    Option.map (fun s => s.confidenceScore)
      (processSuggestion
        ⟨"abcdef".toList, "NEW".toList, "update".toList,
         ratLT 1 2 (by norm_num) (by norm_num), "r".toList⟩
        ⟨"s1".toList, "T".toList, "xxabcdeyy".toList, "f.md".toList⟩) =
      some confCeiling ∧
    ¬ (confCeiling ≤ ratLT 1 2 (by norm_num) (by norm_num)) ∧
    Option.map (fun s => s.confidenceScore)
      (processSuggestion
        ⟨"xxabc".toList, "NEW".toList, "update".toList,
         ratLT 3 2 (by norm_num) (by norm_num), "r".toList⟩
        ⟨"s1".toList, "T".toList, "xxabcdeyy".toList, "f.md".toList⟩) =
      some (ratLT 3 2 (by norm_num) (by norm_num)) ∧
    ¬ (ratLT 3 2 (by norm_num) (by norm_num) ≤ (1 : ℚ)) := by decide

/-- Claim C5 (amended): every suggestion the matcher produces carries either
the generator-supplied confidence unchanged (exact and normalized tiers —
unvalidated, so it lies in [0,1] only when the supplied score does) or the
fixed fuzzy ceiling 0.6; a fuzzy-matched suggestion's score is the constant
0.6 regardless of the supplied score, hence not necessarily below it. -/
theorem c5_confidence_passthrough (d : SuggRaw) (sec : DocSection) (s : UpdateSuggestion)
    (h : processSuggestion d sec = some s) :
    s.confidenceScore = d.confidence ∨ s.confidenceScore = confCeiling := by
  rw [processSuggestion] at h
  by_cases h1 : isSubstr d.origContent sec.content = true
  · rw [if_pos h1] at h
    injection h with h
    subst h
    left
    rfl
  · rw [if_neg h1] at h
    by_cases h2 : (!(normalizeText d.origContent).isEmpty &&
        isSubstr (normalizeText d.origContent) (normalizeText sec.content)) = true
    · rw [if_pos h2] at h
      injection h with h
      subst h
      left
      rfl
    · rw [if_neg h2] at h
      by_cases h3 : 0 < (findLongestMatch d.origContent sec.content).size ∧
          4 * d.origContent.length < 5 * (findLongestMatch d.origContent sec.content).size
      · rw [if_pos h3] at h
        injection h with h
        subst h
        right
        rfl
      · rw [if_neg h3] at h
        exact absurd h (by simp)

/-- Witness for the amended C5 at a concrete input (exact tier). -/
theorem c5_confidence_passthrough_witness :
    processSuggestion
        ⟨"xxabc".toList, "NEW".toList, "update".toList,
         ratLT 3 2 (by norm_num) (by norm_num), "r".toList⟩
        ⟨"s1".toList, "T".toList, "xxabcdeyy".toList, "f.md".toList⟩ =
      some ⟨"s1".toList, "T".toList, "f.md".toList, "xxabc".toList, "NEW".toList,
        "update".toList, ratLT 3 2 (by norm_num) (by norm_num), "r".toList⟩ ∧
    (((⟨"s1".toList, "T".toList, "f.md".toList, "xxabc".toList, "NEW".toList,
        "update".toList, ratLT 3 2 (by norm_num) (by norm_num),
        "r".toList⟩ : UpdateSuggestion).confidenceScore =
        ratLT 3 2 (by norm_num) (by norm_num)) ∨
      ((⟨"s1".toList, "T".toList, "f.md".toList, "xxabc".toList, "NEW".toList,
        "update".toList, ratLT 3 2 (by norm_num) (by norm_num),
        "r".toList⟩ : UpdateSuggestion).confidenceScore = confCeiling)) :=
  ⟨by decide,
   c5_confidence_passthrough
     ⟨"xxabc".toList, "NEW".toList, "update".toList,
      ratLT 3 2 (by norm_num) (by norm_num), "r".toList⟩
     ⟨"s1".toList, "T".toList, "xxabcdeyy".toList, "f.md".toList⟩
     ⟨"s1".toList, "T".toList, "f.md".toList, "xxabc".toList, "NEW".toList,
      "update".toList, ratLT 3 2 (by norm_num) (by norm_num), "r".toList⟩
     (by decide)⟩

/-- Claim C6 counterexample: approve called on a suggestion whose stored
status is rejected (not pending) does not fail with any state-transition
error — it succeeds, applies the change to the document file and moves the
suggestion to the applied store; reject on the same non-pending suggestion
also succeeds.  State is modified, not left untouched. -/
theorem c6_counterexample :
    (approveSuggestions
        ⟨[⟨"b1".toList,
           [⟨"s1".toList, "doc".toList, "ab".toList, "c".toList, .rejected, none⟩]⟩],
         [], [("doc".toList, "xab".toList)]⟩
        ("b1".toList) ["s1".toList] (fun _ => "T0".toList)).2 = .ok ⟨1, 0⟩ ∧
    fsLookup (approveSuggestions
        ⟨[⟨"b1".toList,
           [⟨"s1".toList, "doc".toList, "ab".toList, "c".toList, .rejected, none⟩]⟩],
         [], [("doc".toList, "xab".toList)]⟩
        ("b1".toList) ["s1".toList] (fun _ => "T0".toList)).1.fs ("doc".toList) =
      some ("xc".toList) ∧
    (approveSuggestions
        ⟨[⟨"b1".toList,
           [⟨"s1".toList, "doc".toList, "ab".toList, "c".toList, .rejected, none⟩]⟩],
         [], [("doc".toList, "xab".toList)]⟩
        ("b1".toList) ["s1".toList] (fun _ => "T0".toList)).1 ≠
      ⟨[⟨"b1".toList,
         [⟨"s1".toList, "doc".toList, "ab".toList, "c".toList, .rejected, none⟩]⟩],
       [], [("doc".toList, "xab".toList)]⟩ ∧
    (rejectSuggestions
        ⟨[⟨"b1".toList,
           [⟨"s1".toList, "doc".toList, "ab".toList, "c".toList, .rejected, none⟩]⟩],
         [], [("doc".toList, "xab".toList)]⟩
        ("b1".toList) ["s1".toList]).2 = .ok ⟨1⟩ := by decide

/-- Claim C6 (amended): the code has no InvalidStateTransition check at all.
When the named batch exists, approve and reject both return a success
payload whatever the statuses of the named suggestions: suggestions whose
id is named are processed regardless of their current status and ids that
match nothing are silently ignored; reject reports the length of the
requested id list and touches neither the applied store nor the files. -/
theorem c6_no_transition_check (st : MState) (bid : Str) (ids : List Str) (ts : Nat → Str)
    (pre post : List Batch) (B : Batch)
    (h : extractBatch st.pending bid = some (pre, B, post)) :
    (∃ k, (approveSuggestions st bid ids ts).2 = .ok k) ∧
    (rejectSuggestions st bid ids).2 = .ok ⟨ids.length⟩ ∧
    (rejectSuggestions st bid ids).1.applied = st.applied ∧
    (rejectSuggestions st bid ids).1.fs = st.fs ∧
    (rejectSuggestions st bid ids).1.pending =
      (if (B.suggestions.filter (fun s => !decide (s.suggestionId ∈ ids))).isEmpty
       then pre ++ post
       else pre ++ ({ B with
         suggestions :=
           B.suggestions.filter (fun s => !decide (s.suggestionId ∈ ids)) } :: post)) := by
  refine ⟨?_, ?_, ?_, ?_, ?_⟩
  · rw [approveSuggestions, h]
    exact ⟨_, rfl⟩
  · rw [rejectSuggestions, h]
  · rw [rejectSuggestions, h]
  · rw [rejectSuggestions, h]
  · rw [rejectSuggestions, h]

/-- Witness for the amended C6 at a concrete input. -/
theorem c6_no_transition_check_witness :
    (∃ k, (approveSuggestions
        ⟨[⟨"b1".toList,
           [⟨"s1".toList, "doc".toList, "ab".toList, "c".toList, .rejected, none⟩]⟩],
         [], [("doc".toList, "xab".toList)]⟩
        ("b1".toList) ["zz".toList] (fun _ => "T0".toList)).2 = .ok k) ∧
    (rejectSuggestions
        ⟨[⟨"b1".toList,
           [⟨"s1".toList, "doc".toList, "ab".toList, "c".toList, .rejected, none⟩]⟩],
         [], [("doc".toList, "xab".toList)]⟩
        ("b1".toList) ["zz".toList]).2 = .ok ⟨(["zz".toList] : List Str).length⟩ ∧
    (rejectSuggestions
        ⟨[⟨"b1".toList,
           [⟨"s1".toList, "doc".toList, "ab".toList, "c".toList, .rejected, none⟩]⟩],
         [], [("doc".toList, "xab".toList)]⟩
        ("b1".toList) ["zz".toList]).1.applied = [] ∧
    (rejectSuggestions
        ⟨[⟨"b1".toList,
           [⟨"s1".toList, "doc".toList, "ab".toList, "c".toList, .rejected, none⟩]⟩],
         [], [("doc".toList, "xab".toList)]⟩
        ("b1".toList) ["zz".toList]).1.fs = [("doc".toList, "xab".toList)] ∧
    (rejectSuggestions
        ⟨[⟨"b1".toList,
           [⟨"s1".toList, "doc".toList, "ab".toList, "c".toList, .rejected, none⟩]⟩],
         [], [("doc".toList, "xab".toList)]⟩
        ("b1".toList) ["zz".toList]).1.pending =
      (if (([⟨"s1".toList, "doc".toList, "ab".toList, "c".toList, .rejected,
              none⟩] : List StoredSugg).filter
            (fun s => !decide (s.suggestionId ∈ (["zz".toList] : List Str)))).isEmpty
       then ([] : List Batch) ++ []
       else [] ++ ({ batchId := "b1".toList
                     suggestions :=
                       ([⟨"s1".toList, "doc".toList, "ab".toList, "c".toList,
                          .rejected, none⟩] : List StoredSugg).filter
                         (fun s =>
                           !decide (s.suggestionId ∈ (["zz".toList] : List Str))) } ::
                    [])) :=
  c6_no_transition_check
    ⟨[⟨"b1".toList,
       [⟨"s1".toList, "doc".toList, "ab".toList, "c".toList, .rejected, none⟩]⟩],
     [], [("doc".toList, "xab".toList)]⟩
    ("b1".toList) ["zz".toList] (fun _ => "T0".toList) [] []
    ⟨"b1".toList,
     [⟨"s1".toList, "doc".toList, "ab".toList, "c".toList, .rejected, none⟩]⟩
    (by decide)

/-- Claim C10: for every batch present in the pending store, reject reports
a rejected_count equal to the length of the requested id list — whatever
the ids match — so the reported count can exceed the number of suggestions
actually removed. -/
theorem c10_reject_count (st : MState) (bid : Str) (ids : List Str)
    (pre post : List Batch) (B : Batch)
    (h : extractBatch st.pending bid = some (pre, B, post)) :
    (rejectSuggestions st bid ids).2 = .ok ⟨ids.length⟩ := by
  rw [rejectSuggestions, h]

/-- Witness for C10: three requested ids, none matching the batch's single
suggestion; the reported count is 3 while nothing was removed. -/
theorem c10_reject_count_witness :
    (rejectSuggestions
        ⟨[⟨"b1".toList,
           [⟨"s1".toList, "doc".toList, "ab".toList, "c".toList, .pending, none⟩]⟩],
         [], []⟩
        ("b1".toList) ["x1".toList, "x2".toList, "x3".toList]).2 = .ok ⟨3⟩ ∧
    (rejectSuggestions
        ⟨[⟨"b1".toList,
           [⟨"s1".toList, "doc".toList, "ab".toList, "c".toList, .pending, none⟩]⟩],
         [], []⟩
        ("b1".toList) ["x1".toList, "x2".toList, "x3".toList]).1.pending =
      [⟨"b1".toList,
        [⟨"s1".toList, "doc".toList, "ab".toList, "c".toList, .pending, none⟩]⟩] :=
  ⟨c10_reject_count
    ⟨[⟨"b1".toList,
       [⟨"s1".toList, "doc".toList, "ab".toList, "c".toList, .pending, none⟩]⟩],
     [], []⟩
    ("b1".toList) ["x1".toList, "x2".toList, "x3".toList] [] []
    ⟨"b1".toList,
     [⟨"s1".toList, "doc".toList, "ab".toList, "c".toList, .pending, none⟩]⟩
    (by decide),
   by decide⟩

/-- Claim C7: a second `revertOne` on the same suggestion id fails — the
suggestion's status is by then reverted, not successfully_applied — and the
second call returns the state of the first call unchanged: neither the
document files nor the applied store are modified. -/
theorem c7_double_revert (st : MState) (sid : Str) (st₁ : MState) (r : RevertOk)
    (h : revertUpdate st sid = (st₁, .ok r)) :
    revertUpdate st₁ sid = (st₁, .err (.badStatus .reverted)) := by
  rw [revertUpdate] at h
  cases hf : findApplied st.applied sid with
  | none =>
    simp only [hf] at h
    exact absurd (congrArg Prod.snd h) (by simp)
  | some s =>
    simp only [hf] at h
    by_cases hst : s.status = Status.successfullyApplied
    · rw [if_pos hst] at h
      cases hbp : s.backupPath with
      | none =>
        simp only [hbp] at h
        exact absurd (congrArg Prod.snd h) (by simp)
      | some bp =>
        simp only [hbp] at h
        by_cases hbe : bp.isEmpty = true
        · rw [if_pos hbe] at h
          exact absurd (congrArg Prod.snd h) (by simp)
        · rw [if_neg hbe] at h
          cases hl : fsLookup st.fs bp with
          | none =>
            simp only [hl] at h
            exact absurd (congrArg Prod.snd h) (by simp)
          | some c =>
            simp only [hl] at h
            have hst₁ : st₁ = ⟨st.pending, setReverted st.applied sid,
                fsMove st.fs bp s.filePath⟩ := (congrArg Prod.fst h).symm
            have hfind₂ : findApplied st₁.applied sid =
                some { s with status := .reverted } := by
              rw [hst₁]
              exact findApplied_setReverted st.applied sid s hf
            rw [revertUpdate]
            simp only [hfind₂]
            rw [if_neg (by simp)]
    · rw [if_neg hst] at h
      exact absurd (congrArg Prod.snd h) (by simp)

/-- Witness for C7 at a concrete input: the first revert succeeds, the
second fails with the status error and returns the same state. -/
theorem c7_double_revert_witness :
    revertUpdate
      ⟨[], [⟨"b1".toList,
             [⟨"s1".toList, "doc".toList, "ab".toList, "c".toList,
               .reverted, some ("doc.backup.T".toList)⟩]⟩],
       [("doc".toList, "xab".toList)]⟩
      ("s1".toList) =
    (⟨[], [⟨"b1".toList,
            [⟨"s1".toList, "doc".toList, "ab".toList, "c".toList,
              .reverted, some ("doc.backup.T".toList)⟩]⟩],
      [("doc".toList, "xab".toList)]⟩,
     .err (.badStatus .reverted)) :=
  c7_double_revert
    ⟨[], [⟨"b1".toList,
           [⟨"s1".toList, "doc".toList, "ab".toList, "c".toList,
             .successfullyApplied, some ("doc.backup.T".toList)⟩]⟩],
     [("doc".toList, "xc".toList), ("doc.backup.T".toList, "xab".toList)]⟩
    ("s1".toList)
    ⟨[], [⟨"b1".toList,
           [⟨"s1".toList, "doc".toList, "ab".toList, "c".toList,
             .reverted, some ("doc.backup.T".toList)⟩]⟩],
     [("doc".toList, "xab".toList)]⟩
    ⟨"s1".toList, "doc".toList⟩
    (by decide)

/-- Claim C8: `revertAll` attempts the backup move for every suggestion in
status successfully_applied: those whose backup exists are reverted and
dropped from their batch entirely (not retained as reverted), a missing
backup is counted as a per-item failure while the pass continues (the
failed suggestion is retained), suggestions in any other status are
retained unchanged, and batches left with zero suggestions are dropped.
The hypotheses rule out aliasing between distinct suggestions' backup
paths and document paths. -/
theorem c8_revert_all (st : MState)
    (hnd : (suggBps (allSuggs st.applied)).Nodup)
    (hdis : ∀ bp ∈ suggBps (allSuggs st.applied),
      ∀ fp ∈ suggFps (allSuggs st.applied), bp ≠ fp) :
    (revertAllUpdates st).1.applied =
      st.applied.filterMap (fun b =>
        if (b.suggestions.filter (fun s => !backupLive st.fs s)).isEmpty then none
        else some { b with
          suggestions := b.suggestions.filter (fun s => !backupLive st.fs s) }) ∧
    (revertAllUpdates st).2.revertedCount =
      ((allSuggs st.applied).filter (fun s => backupLive st.fs s)).length ∧
    (revertAllUpdates st).2.failedCount =
      ((allSuggs st.applied).filter (fun s => appliedNoBackup st.fs s)).length ∧
    (revertAllUpdates st).1.pending = st.pending := by
  have S := revertAllBatches_spec st.fs st.applied st.fs (fun bp _ => rfl) hnd hdis
  rcases h : revertAllBatches st.applied st.fs with ⟨fsB, bs, rc, fc⟩
  simp only [h] at S
  obtain ⟨e1, e2, e3, _⟩ := S
  rw [revertAllUpdates]
  simp only [h]
  exact ⟨e1, e2, e3, trivial⟩

/-- Witness for C8 at a concrete input: one batch with a revertible
suggestion, one with a backup-missing failure and a non-applied record; the
revertible one is dropped, its batch disappears, the other batch retains
the failed and the foreign-status suggestion; counts are (1, 1). -/
theorem c8_revert_all_witness :
    (revertAllUpdates
      ⟨[], [⟨"b1".toList,
             [⟨"sA".toList, "doc".toList, "a".toList, "b".toList,
               .successfullyApplied, some ("doc.backup.1".toList)⟩]⟩,
            ⟨"b2".toList,
             [⟨"sB".toList, "doc2".toList, "a".toList, "b".toList,
               .successfullyApplied, some ("gone".toList)⟩,
              ⟨"sC".toList, "doc2".toList, "a".toList, "b".toList,
               .reverted, none⟩]⟩],
       [("doc".toList, "xb".toList), ("doc.backup.1".toList, "xa".toList),
        ("doc2".toList, "yb".toList)]⟩).1.applied =
      ([⟨"b1".toList,
         [⟨"sA".toList, "doc".toList, "a".toList, "b".toList,
           .successfullyApplied, some ("doc.backup.1".toList)⟩]⟩,
        ⟨"b2".toList,
         [⟨"sB".toList, "doc2".toList, "a".toList, "b".toList,
           .successfullyApplied, some ("gone".toList)⟩,
          ⟨"sC".toList, "doc2".toList, "a".toList, "b".toList,
           .reverted, none⟩]⟩] : List Batch).filterMap (fun b =>
        if (b.suggestions.filter (fun s =>
             !backupLive [("doc".toList, "xb".toList),
               ("doc.backup.1".toList, "xa".toList),
               ("doc2".toList, "yb".toList)] s)).isEmpty then none
        else some { b with
          suggestions := b.suggestions.filter (fun s =>
            !backupLive [("doc".toList, "xb".toList),
              ("doc.backup.1".toList, "xa".toList),
              ("doc2".toList, "yb".toList)] s) }) ∧
    (revertAllUpdates
      ⟨[], [⟨"b1".toList,
             [⟨"sA".toList, "doc".toList, "a".toList, "b".toList,
               .successfullyApplied, some ("doc.backup.1".toList)⟩]⟩,
            ⟨"b2".toList,
             [⟨"sB".toList, "doc2".toList, "a".toList, "b".toList,
               .successfullyApplied, some ("gone".toList)⟩,
              ⟨"sC".toList, "doc2".toList, "a".toList, "b".toList,
               .reverted, none⟩]⟩],
       [("doc".toList, "xb".toList), ("doc.backup.1".toList, "xa".toList),
        ("doc2".toList, "yb".toList)]⟩).2.revertedCount =
      ((allSuggs [⟨"b1".toList,
         [⟨"sA".toList, "doc".toList, "a".toList, "b".toList,
           .successfullyApplied, some ("doc.backup.1".toList)⟩]⟩,
        ⟨"b2".toList,
         [⟨"sB".toList, "doc2".toList, "a".toList, "b".toList,
           .successfullyApplied, some ("gone".toList)⟩,
          ⟨"sC".toList, "doc2".toList, "a".toList, "b".toList,
           .reverted, none⟩]⟩]).filter (fun s =>
          backupLive [("doc".toList, "xb".toList),
            ("doc.backup.1".toList, "xa".toList),
            ("doc2".toList, "yb".toList)] s)).length ∧
    (revertAllUpdates
      ⟨[], [⟨"b1".toList,
             [⟨"sA".toList, "doc".toList, "a".toList, "b".toList,
               .successfullyApplied, some ("doc.backup.1".toList)⟩]⟩,
            ⟨"b2".toList,
             [⟨"sB".toList, "doc2".toList, "a".toList, "b".toList,
               .successfullyApplied, some ("gone".toList)⟩,
              ⟨"sC".toList, "doc2".toList, "a".toList, "b".toList,
               .reverted, none⟩]⟩],
       [("doc".toList, "xb".toList), ("doc.backup.1".toList, "xa".toList),
        ("doc2".toList, "yb".toList)]⟩).2.failedCount =
      ((allSuggs [⟨"b1".toList,
         [⟨"sA".toList, "doc".toList, "a".toList, "b".toList,
           .successfullyApplied, some ("doc.backup.1".toList)⟩]⟩,
        ⟨"b2".toList,
         [⟨"sB".toList, "doc2".toList, "a".toList, "b".toList,
           .successfullyApplied, some ("gone".toList)⟩,
          ⟨"sC".toList, "doc2".toList, "a".toList, "b".toList,
           .reverted, none⟩]⟩]).filter (fun s =>
          appliedNoBackup [("doc".toList, "xb".toList),
            ("doc.backup.1".toList, "xa".toList),
            ("doc2".toList, "yb".toList)] s)).length ∧
    (revertAllUpdates
      ⟨[], [⟨"b1".toList,
             [⟨"sA".toList, "doc".toList, "a".toList, "b".toList,
               .successfullyApplied, some ("doc.backup.1".toList)⟩]⟩,
            ⟨"b2".toList,
             [⟨"sB".toList, "doc2".toList, "a".toList, "b".toList,
               .successfullyApplied, some ("gone".toList)⟩,
              ⟨"sC".toList, "doc2".toList, "a".toList, "b".toList,
               .reverted, none⟩]⟩],
       [("doc".toList, "xb".toList), ("doc.backup.1".toList, "xa".toList),
        ("doc2".toList, "yb".toList)]⟩).1.pending = [] :=
  c8_revert_all
    ⟨[], [⟨"b1".toList,
           [⟨"sA".toList, "doc".toList, "a".toList, "b".toList,
             .successfullyApplied, some ("doc.backup.1".toList)⟩]⟩,
          ⟨"b2".toList,
           [⟨"sB".toList, "doc2".toList, "a".toList, "b".toList,
             .successfullyApplied, some ("gone".toList)⟩,
            ⟨"sC".toList, "doc2".toList, "a".toList, "b".toList,
             .reverted, none⟩]⟩],
     [("doc".toList, "xb".toList), ("doc.backup.1".toList, "xa".toList),
      ("doc2".toList, "yb".toList)]⟩
    (by decide) (by decide)

/-- Claim C9: `listPending` returns only batches with at least one pending
suggestion, each filtered to exactly its pending suggestions; and after
approving (or rejecting) all the pending suggestions of a batch, that batch
no longer appears in `listPending` output at all. -/
theorem c9_list_pending (st : MState) (bid : Str) (ids : List Str) (ts : Nat → Str)
    (pre post : List Batch) (B : Batch)
    (hx : extractBatch st.pending bid = some (pre, B, post))
    (hpost : ∀ x ∈ post, x.batchId ≠ bid)
    (hcover : ∀ s ∈ B.suggestions, s.status = .pending → s.suggestionId ∈ ids) :
    (∀ (pending₀ : List Batch) (ob : Option Str), ∀ b ∈ getPendingUpdates pending₀ ob,
      b.suggestions ≠ [] ∧ (∀ s ∈ b.suggestions, s.status = .pending) ∧
      ∃ b₀ ∈ pending₀, b.batchId = b₀.batchId ∧
        b.suggestions = b₀.suggestions.filter (fun s => decide (s.status = .pending))) ∧
    (∀ b ∈ getPendingUpdates (approveSuggestions st bid ids ts).1.pending none,
      b.batchId ≠ bid) ∧
    (∀ b ∈ getPendingUpdates (rejectSuggestions st bid ids).1.pending none,
      b.batchId ≠ bid) := by
  have hpre := (extractBatch_some st.pending bid pre B post hx).2.2
  refine ⟨?_, ?_, ?_⟩
  · intro pending₀ ob b hb
    have hb₁ : b ∈ filterPendingBatches pending₀ := by
      rw [getPendingUpdates.eq_def] at hb
      cases ob with
      | none => exact hb
      | some x => exact (List.mem_filter.1 hb).1
    obtain ⟨b₀, hb0, hbeq, hne⟩ := mem_filterPendingBatches pending₀ b hb₁
    refine ⟨?_, ?_, b₀, hb0, ?_, ?_⟩
    · intro hnil
      rw [hbeq] at hnil
      have hnil₁ : b₀.suggestions.filter (fun s => decide (s.status = .pending)) = [] := hnil
      rw [hnil₁] at hne
      simp at hne
    · intro s hs
      rw [hbeq] at hs
      have hs₁ : s ∈ b₀.suggestions.filter (fun s => decide (s.status = .pending)) := hs
      have := (List.mem_filter.1 hs₁).2
      exact of_decide_eq_true this
    · rw [hbeq]
    · rw [hbeq]
  · intro b hb
    have hb₁ : b ∈ filterPendingBatches
        (if (B.suggestions.filter (fun s => !decide (s.suggestionId ∈ ids))).isEmpty
         then pre ++ post
         else pre ++ ({ B with
           suggestions :=
             B.suggestions.filter (fun s => !decide (s.suggestionId ∈ ids)) } :: post)) := by
      rw [approveSuggestions, hx] at hb
      exact hb
    exact filterPendingBatches_no_bid pre post B bid ids hpre hpost hcover b hb₁
  · intro b hb
    have hb₁ : b ∈ filterPendingBatches
        (if (B.suggestions.filter (fun s => !decide (s.suggestionId ∈ ids))).isEmpty
         then pre ++ post
         else pre ++ ({ B with
           suggestions :=
             B.suggestions.filter (fun s => !decide (s.suggestionId ∈ ids)) } :: post)) := by
      rw [rejectSuggestions, hx] at hb
      exact hb
    exact filterPendingBatches_no_bid pre post B bid ids hpre hpost hcover b hb₁

/-- Witness for C9 at a concrete input: a batch whose single pending
suggestion is named; after approve or reject the batch is gone from the
pending listing. -/
theorem c9_list_pending_witness :
    (∀ (pending₀ : List Batch) (ob : Option Str), ∀ b ∈ getPendingUpdates pending₀ ob,
      b.suggestions ≠ [] ∧ (∀ s ∈ b.suggestions, s.status = .pending) ∧
      ∃ b₀ ∈ pending₀, b.batchId = b₀.batchId ∧
        b.suggestions = b₀.suggestions.filter (fun s => decide (s.status = .pending))) ∧
    (∀ b ∈ getPendingUpdates
        (approveSuggestions
          ⟨[⟨"b1".toList,
             [⟨"s1".toList, "doc".toList, "ab".toList, "c".toList, .pending, none⟩]⟩],
           [], [("doc".toList, "xab".toList)]⟩
          ("b1".toList) ["s1".toList] (fun _ => "T0".toList)).1.pending none,
      b.batchId ≠ "b1".toList) ∧
    (∀ b ∈ getPendingUpdates
        (rejectSuggestions
          ⟨[⟨"b1".toList,
             [⟨"s1".toList, "doc".toList, "ab".toList, "c".toList, .pending, none⟩]⟩],
           [], [("doc".toList, "xab".toList)]⟩
          ("b1".toList) ["s1".toList]).1.pending none,
      b.batchId ≠ "b1".toList) :=
  c9_list_pending
    ⟨[⟨"b1".toList,
       [⟨"s1".toList, "doc".toList, "ab".toList, "c".toList, .pending, none⟩]⟩],
     [], [("doc".toList, "xab".toList)]⟩
    ("b1".toList) ["s1".toList] (fun _ => "T0".toList) [] []
    ⟨"b1".toList,
     [⟨"s1".toList, "doc".toList, "ab".toList, "c".toList, .pending, none⟩]⟩
    (by decide) (by decide) (by decide)
